import Mathlib

/-!
Blaze accelerator runtime: the `Task` data-readiness state machine.

A shallow embedding of `manager/src/Task.cpp` (namespace `acc_runtime`):
`Task::addInputBlock`, `Task::getInputBlock`, `Task::getOutputBlock` and
`Task::onDataReady`, and of the constructor of `TaskManager` in
`manager/src/TaskManager.h` (namespace `blaze`), followed by the properties
established about them.

Conventions of the embedding.

* A `DataBlock_ptr` is a shared pointer; a non-null pointer is a natural
  number that addresses the block store `Task.blocks`, and the null pointer
  `NULL_DATA_BLOCK` is `none`.
* `std::vector` is a list whose last element is `back()`.
* `std::map<int64_t, DataBlock_ptr>` is an association list that holds every key
  at most once; only `find`, `operator[]` on a present key and `insert` are used.
* `int`, `int64_t` and `size_t` values are unbounded (`Int`, `Nat`): the counters
  are far from the machine limits and no wrap-around is modelled.
* A C++ exception is an `Except.error` returned together with the task as it is
  at the `throw`.
* `boost::lock_guard`, `printf` and `delete` have no effect on the sequential
  behaviour and are left out. `new char[size]` throws for a negative `size`;
  running out of memory is not modelled, here or in the containers.
-/

namespace acc_runtime

/-! ## Data model -/

/-- Modelled from the spec: the status enumeration of `Task.h` (not part of the
sources), `INIT → READY → RUNNING → COMMITTED`. -/
inductive TaskStatus where
  | INIT
  | READY
  | RUNNING
  | COMMITTED
  deriving DecidableEq, Repr

/-- Position of a status in the order `INIT < READY < RUNNING < COMMITTED`. -/
def TaskStatus.rank : TaskStatus → Nat
  | .INIT => 0
  | .READY => 1
  | .RUNNING => 2
  | .COMMITTED => 3

/-- What a `void*` handed to `DataBlock::writeData` points to. -/
inductive Payload where
  /-- the address of an `int64_t` holding `v` (`(void*)&bval`) -/
  | int64 (v : Int)
  /-- a `char*` buffer returned by `readLine` -/
  | chars (data : List Nat)
  deriving DecidableEq, Repr

/-- Modelled from the spec: the capability set of the external `DataBlock`
(`Block.h` is not part of the sources): `isReady() -> bool`, `alloc(size)`,
`setLength(n)`, `setNumItems(n)`, `readFromMem(path)` and
`writeData(ptr, len, offset=0)`, over an arbitrary block state `B`. -/
structure DataBlockOps (B : Type) where
  isReady : B → Bool
  setLength : Int → B → B
  setNumItems : Int → B → B
  alloc : Int → B → B
  readFromMem : String → B → B
  writeData : Payload → Nat → Nat → B → B

/-- Modelled from the spec: the accessors of the protobuf message `DataMsg` that
`Task::onDataReady` reads (the message definition is not part of the sources).
`has_x` is the presence bit of the optional field `x`; `x` is what the accessor
`x()` returns. -/
structure DataMsg where
  partition_id : Int
  has_length : Bool
  length : Int
  has_num_items : Bool
  num_items : Int
  size : Int
  offset : Int
  path : String
  has_bval : Bool
  bval : Int
  deriving DecidableEq, Repr

/-- The exceptions raised inside `Task::onDataReady`: its `std::runtime_error`s and
the failure of `new char[size]`. -/
inductive TaskError where
  /-- thrown with "onDataReady(): Did not find block" -/
  | didNotFindBlock
  /-- thrown with "onDataReady(): Invalid broadcast data msg" -/
  | invalidBroadcastMsg
  /-- any error of the `hdfs://` branch, with its message -/
  | hdfsError (what : String)
  /-- thrown with "Cannot find file" -/
  | cannotFindFile
  /-- an error raised by `readLine` and thrown again -/
  | readLineError (what : String)
  /-- thrown by `new char[size]` (line 129) for a negative `size`
  (`std::bad_array_new_length`, a `std::bad_alloc`) -/
  | badArrayNewLength
  deriving DecidableEq, Repr

deriving instance DecidableEq for Except

/-- The surroundings `Task::onDataReady` reads from in its streamed-from-file
branch. -/
structure Env where
  /-- the `hdfs://` branch (`#ifdef USE_HDFS` body or the `#else` throw): the
  C string in `buffer` after the read, or the message of the error thrown -/
  hdfsRead : String → Int → Int → Except String String
  /-- whether `fin` is good after `std::ifstream fin(path, std::ifstream::binary)` -/
  fileOpens : String → Bool
  /-- the C string in `buffer` after `fin.seekg(offset); fin.read(buffer, size)` -/
  fileRead : String → Int → Int → String
  /-- the virtual `readLine(line, num_elements, num_bytes)`: from the line and the
  current values of the two reference parameters to the returned buffer and the
  new values `(data, num_elements, num_bytes)`, or the message of its error -/
  readLine : String → Nat → Nat → Except String (List Nat × Nat × Nat)

/-- The members of `Task` used by `Task.cpp`, with the block store the shared
pointers address. -/
structure Task (B : Type) where
  num_input : Int
  num_ready : Int
  status : TaskStatus
  input_blocks : List Nat
  input_table : List (Int × Nat)
  output_blocks : List Nat
  blocks : Nat → B

/-- A freshly constructed task: `num_ready = 0`, status `INIT`, no input or
output blocks. -/
def Task.fresh {B : Type} (num_input : Int) (blocks : Nat → B) : Task B :=
  { num_input := num_input, num_ready := 0, status := .INIT,
    input_blocks := [], input_table := [], output_blocks := [], blocks := blocks }

/-! ## `std::map` operations -/

/-- The lookup `input_table.find(k)`: the mapped pointer, `none` for `end()`. -/
def mapFind (tbl : List (Int × Nat)) (k : Int) : Option Nat :=
  match tbl with
  | [] => none
  | (k', v) :: rest => if k = k' then some v else mapFind rest k

/-- The call `input_table.insert(std::make_pair(k, v))`, which inserts only when
`k` is not yet a key (`std::map::insert` keeps an existing entry). -/
def mapInsert (tbl : List (Int × Nat)) (k : Int) (v : Nat) : List (Int × Nat) :=
  match mapFind tbl k with
  | some _ => tbl
  | none => tbl ++ [(k, v)]

/-! ## `Task::addInputBlock`, `Task::getInputBlock`, `Task::getOutputBlock` -/

/-- Embeds `void Task::addInputBlock(int64_t partition_id, DataBlock_ptr block)`. -/
def addInputBlock {B : Type} (ops : DataBlockOps B) (partition_id : Int) (block : Nat)
    (t : Task B) : Task B :=
  let t1 := { t with input_blocks := t.input_blocks ++ [block] }
  let t2 := { t1 with input_table := mapInsert t1.input_table partition_id block }
  if ops.isReady (t2.blocks block) then
    let t3 := { t2 with num_ready := t2.num_ready + 1 }
    if t3.num_ready = t3.num_input then { t3 with status := .READY } else t3
  else t2

/-- Embeds `DataBlock_ptr Task::getInputBlock(int64_t block_id)`; `none` is
`NULL_DATA_BLOCK`. -/
def getInputBlock {B : Type} (block_id : Int) (t : Task B) : Option Nat × Task B :=
  match mapFind t.input_table block_id with
  | some b => (some b, t)
  | none => (none, t)

/-- Embeds `bool Task::getOutputBlock(DataBlock_ptr &block)`: the returned flag, the
caller's reference after the call, and the task after the call. -/
def getOutputBlock {B : Type} (block : Option Nat) (t : Task B) :
    Bool × Option Nat × Task B :=
  if !t.output_blocks.isEmpty then
    let block := t.output_blocks.getLast?
    let t1 := { t with output_blocks := t.output_blocks.dropLast }
    if t1.output_blocks.isEmpty then (false, block, { t1 with status := .COMMITTED })
    else (true, block, t1)
  else (false, block, t)

/-! ## `Task::onDataReady` -/

/-- The loop `while (std::getline(sstream, line))` over the content: `cur` holds
the characters of the line being read, last one first. -/
def getlinesAux : List Char → List Char → List String
  | [], cur => if cur.isEmpty then [] else [String.mk cur.reverse]
  | c :: cs, cur =>
    if c = '\n' then String.mk cur.reverse :: getlinesAux cs []
    else getlinesAux cs (c :: cur)

/-- The lines `std::getline` extracts from `std::istringstream sstream(line_buffer)`. -/
def getlines (line_buffer : String) : List String :=
  getlinesAux line_buffer.data []

/-- The local variables of the line loop (lines 194-202). -/
structure LineLoop where
  data_buf : List (Nat × List Nat)
  total_bytes : Nat
  num_bytes : Nat
  num_elements : Nat
  deriving DecidableEq, Repr

/-- The body of the line loop (lines 204-219) run over the lines in order. -/
def readLines (env : Env) : List String → LineLoop → Except TaskError LineLoop
  | [], st => .ok st
  | line :: rest, st =>
    match env.readLine line st.num_elements st.num_bytes with
    | .error e => .error (.readLineError e)
    | .ok (data, num_elements, num_bytes) =>
      let st1 := { st with num_elements := num_elements, num_bytes := num_bytes }
      if num_bytes > 0 then
        readLines env rest
          { st1 with data_buf := st1.data_buf ++ [(num_bytes, data)],
                     total_bytes := st1.total_bytes + num_bytes }
      else readLines env rest st1

/-- The copy loop (lines 229-238): every buffered line is written at the running
offset. -/
def writeLines {B : Type} (ops : DataBlockOps B) : List (Nat × List Nat) → Nat → B → B
  | [], _, blk => blk
  | (bytes, data) :: rest, offset, blk =>
    writeLines ops rest (offset + bytes) (ops.writeData (.chars data) bytes offset blk)

/-- Allocating and filling `buffer` (lines 129-191): `new char[size]`, which throws
for a negative `size` before any file is opened, then the read from HDFS when the
path starts with `hdfs://` and from a normal file otherwise; the result is
`line_buffer`. -/
def readBuffer (env : Env) (path : String) (offset size : Int) : Except TaskError String :=
  if size < 0 then .error .badArrayNewLength
  else if path.take 7 = "hdfs://" then
    match env.hdfsRead path offset size with
    | .ok buffer => .ok buffer
    | .error e => .error (.hdfsError e)
  else if !env.fileOpens path then .error .cannotFindFile
  else .ok (env.fileRead path offset size)

/-- The body of `if (!block->isReady())` (lines 75-261) applied to the block the
message targets: the block after hydration, or the error thrown. Every `throw`
precedes the first mutation of the block. -/
def hydrate {B : Type} (ops : DataBlockOps B) (env : Env) (blockInfo : DataMsg) (blk : B) :
    Except TaskError B :=
  if blockInfo.partition_id < 0 then
    if blockInfo.has_length then
      let length := blockInfo.length
      let size := blockInfo.size
      let num_items := blockInfo.num_items
      let path := blockInfo.path
      .ok (ops.readFromMem path (ops.alloc size (ops.setNumItems num_items
        (ops.setLength length blk))))
    else if blockInfo.has_bval then
      let bval := blockInfo.bval
      .ok (ops.writeData (.int64 bval) 8 0 (ops.alloc 8 (ops.setNumItems 1
        (ops.setLength 1 blk))))
    else .error .invalidBroadcastMsg
  else
    let length := blockInfo.length
    let num_items := if blockInfo.has_num_items then blockInfo.num_items else 1
    let size := blockInfo.size
    let offset := blockInfo.offset
    let path := blockInfo.path
    if length = -1 then
      match readBuffer env path offset size with
      | .error e => .error e
      | .ok line_buffer =>
        match readLines env (getlines line_buffer)
            { data_buf := [], total_bytes := 0, num_bytes := 0, num_elements := 0 } with
        | .error e => .error e
        | .ok st =>
          if st.total_bytes > 0 then
            let blk1 := ops.alloc st.total_bytes blk
            let blk2 := writeLines ops st.data_buf 0 blk1
            let blk3 := ops.setNumItems st.data_buf.length blk2
            .ok (ops.setLength (st.num_elements * st.data_buf.length) blk3)
          else .ok blk
    else
      .ok (ops.readFromMem path (ops.alloc size (ops.setNumItems num_items
        (ops.setLength length blk))))

/-- Embeds `DataBlock_ptr Task::onDataReady(const DataMsg &blockInfo)`: the returned
pointer or the error thrown, and the task after the call. -/
def onDataReady {B : Type} (ops : DataBlockOps B) (env : Env) (blockInfo : DataMsg)
    (t : Task B) : Except TaskError Nat × Task B :=
  let partition_id := blockInfo.partition_id
  match mapFind t.input_table partition_id with
  | none => (.error .didNotFindBlock, t)
  | some block =>
    let hydrated : Except TaskError (Task B) :=
      if !ops.isReady (t.blocks block) then
        match hydrate ops env blockInfo (t.blocks block) with
        | .error e => .error e
        | .ok blk => .ok { t with blocks := Function.update t.blocks block blk }
      else .ok t
    match hydrated with
    | .error e => (.error e, t)
    | .ok t1 =>
      let t2 := { t1 with num_ready := t1.num_ready + 1 }
      let t3 := if t2.num_ready = t2.num_input then { t2 with status := .READY } else t2
      (.ok block, t3)

/-! ## Call sequences -/

/-- One call on a task. -/
inductive Call where
  | addInputBlock (partition_id : Int) (block : Nat)
  | onDataReady (blockInfo : DataMsg)
  | getOutputBlock
  deriving DecidableEq, Repr

/-- The task after one call (an exception of `onDataReady` is caught by the
caller). -/
def Call.run {B : Type} (ops : DataBlockOps B) (env : Env) (c : Call) (t : Task B) : Task B :=
  match c with
  | .addInputBlock partition_id block => acc_runtime.addInputBlock ops partition_id block t
  | .onDataReady blockInfo => (acc_runtime.onDataReady ops env blockInfo t).2
  | .getOutputBlock => (acc_runtime.getOutputBlock none t).2.2

/-- The task after a finite sequence of calls, first call first. -/
def runCalls {B : Type} (ops : DataBlockOps B) (env : Env) : List Call → Task B → Task B
  | [], t => t
  | c :: cs, t => runCalls ops env cs (c.run ops env t)

/-- Whether a call leaves out `getOutputBlock`. -/
def Call.isInput : Call → Bool
  | .getOutputBlock => false
  | _ => true

/-- The outcome of `n` successive `getOutputBlock` calls: for each call the
returned flag, the block it yields and the status after it. -/
def drainOutput {B : Type} : Nat → Task B → List (Bool × Option Nat × TaskStatus)
  | 0, _ => []
  | n + 1, t =>
    let r := getOutputBlock none t
    (r.1, r.2.1, r.2.2.status) :: drainOutput n r.2.2

/-- Whether a call is `addInputBlock`. -/
def Call.isAdd : Call → Bool
  | .addInputBlock _ _ => true
  | _ => false

/-- The calling protocol "every partition is attached once and counted once",
checked along the run of `calls` from `t`; `counted` lists the partition ids that
`num_ready` has counted so far. An `addInputBlock` call must use a partition id that
is not yet registered, and counts it when its block is hydrated; an `onDataReady`
call that returns counts its partition id, which must not have been counted
before; an `onDataReady` call that throws and a `getOutputBlock` call count
nothing. -/
def countsOnce {B : Type} (ops : DataBlockOps B) (env : Env) :
    List Call → Task B → List Int → Bool
  | [], _, _ => true
  | .addInputBlock p b :: cs, t, counted =>
    (mapFind t.input_table p).isNone
      && countsOnce ops env cs (addInputBlock ops p b t)
          (if ops.isReady (t.blocks b) then p :: counted else counted)
  | .onDataReady m :: cs, t, counted =>
    match (onDataReady ops env m t).1 with
    | .ok _ =>
      !counted.contains m.partition_id
        && countsOnce ops env cs (onDataReady ops env m t).2 (m.partition_id :: counted)
    | .error _ => countsOnce ops env cs (onDataReady ops env m t).2 counted
  | .getOutputBlock :: cs, t, counted =>
    countsOnce ops env cs (getOutputBlock none t).2.2 counted

/-- Whether, along the run of `calls` from `t`, every `onDataReady` call that
returns a block leaves that block hydrated. -/
def hydratesOnReturn {B : Type} (ops : DataBlockOps B) (env : Env) :
    List Call → Task B → Bool
  | [], _ => true
  | .onDataReady m :: cs, t =>
    (match (onDataReady ops env m t).1 with
      | .ok block => ops.isReady ((onDataReady ops env m t).2.blocks block)
      | .error _ => true)
      && hydratesOnReturn ops env cs (onDataReady ops env m t).2
  | c :: cs, t => hydratesOnReturn ops env cs (c.run ops env t)

/-- The bookkeeping behind `countsOnce`: the counted partition ids are distinct
and registered, the registered ids are distinct, `num_ready` is the number of
counted ids, and `input_blocks` lists the registered blocks in order. -/
def CountInv {B : Type} (t : Task B) (counted : List Int) : Prop :=
  counted.Nodup ∧ (∀ p ∈ counted, p ∈ t.input_table.map Prod.fst)
    ∧ (t.input_table.map Prod.fst).Nodup ∧ t.num_ready = counted.length
    ∧ t.input_blocks = t.input_table.map Prod.snd

/-- The block of every counted partition id is hydrated. -/
def HydInv {B : Type} (ops : DataBlockOps B) (t : Task B) (counted : List Int) : Prop :=
  ∀ p ∈ counted, ∀ b, mapFind t.input_table p = some b → ops.isReady (t.blocks b) = true

/-! ## The branches of `Task::onDataReady` -/

/-- The five ways lines 75-261 interpret a message. -/
inductive Branch where
  | broadcastArray
  | broadcastScalar
  | invalidBroadcast
  | streamedFromFile
  | memoryMapped
  deriving DecidableEq, Repr

/-- The branch the nested conditionals of lines 75-126 enter for a message:
`partition_id < 0`, then `has_length()`, else `has_bval()`, else the throw; for
`partition_id >= 0`, `length == -1` or not. -/
def branchTaken (blockInfo : DataMsg) : Branch :=
  if blockInfo.partition_id < 0 then
    if blockInfo.has_length then .broadcastArray
    else if blockInfo.has_bval then .broadcastScalar
    else .invalidBroadcast
  else
    let length := blockInfo.length
    if length = -1 then .streamedFromFile else .memoryMapped

/-- The body of each branch of lines 75-261, applied to the target block. -/
def runBranch {B : Type} (ops : DataBlockOps B) (env : Env) (blockInfo : DataMsg) (blk : B) :
    Branch → Except TaskError B
  | .broadcastArray =>
    .ok (ops.readFromMem blockInfo.path (ops.alloc blockInfo.size
      (ops.setNumItems blockInfo.num_items (ops.setLength blockInfo.length blk))))
  | .broadcastScalar =>
    .ok (ops.writeData (.int64 blockInfo.bval) 8 0 (ops.alloc 8 (ops.setNumItems 1
      (ops.setLength 1 blk))))
  | .invalidBroadcast => .error .invalidBroadcastMsg
  | .streamedFromFile =>
    match readBuffer env blockInfo.path blockInfo.offset blockInfo.size with
    | .error e => .error e
    | .ok line_buffer =>
      match readLines env (getlines line_buffer)
          { data_buf := [], total_bytes := 0, num_bytes := 0, num_elements := 0 } with
      | .error e => .error e
      | .ok st =>
        if st.total_bytes > 0 then
          .ok (ops.setLength (st.num_elements * st.data_buf.length)
            (ops.setNumItems st.data_buf.length
              (writeLines ops st.data_buf 0 (ops.alloc st.total_bytes blk))))
        else .ok blk
  | .memoryMapped =>
    .ok (ops.readFromMem blockInfo.path (ops.alloc blockInfo.size
      (ops.setNumItems (if blockInfo.has_num_items then blockInfo.num_items else 1)
        (ops.setLength blockInfo.length blk))))

/-- Follows the spec's words (§4.1 and §3, "Exactly one interpretation branch
applies per message"): the condition the spec attaches to each branch. -/
def specCondition : Branch → DataMsg → Bool
  | .broadcastArray, m => decide (m.partition_id < 0) && m.has_length
  | .broadcastScalar, m => decide (m.partition_id < 0) && m.has_bval
  | .invalidBroadcast, m => decide (m.partition_id < 0) && !m.has_length && !m.has_bval
  | .streamedFromFile, m => decide (0 ≤ m.partition_id) && decide (m.length = -1)
  | .memoryMapped, m => decide (0 ≤ m.partition_id) && decide (m.length ≠ -1)

/-- The conditions of `specCondition` with the scalar branch limited to messages
without `length`, which is the order in which lines 76 and 97 test the fields. -/
def branchCondition : Branch → DataMsg → Bool
  | .broadcastScalar, m => decide (m.partition_id < 0) && !m.has_length && m.has_bval
  | br, m => specCondition br m

/-! ## Conditions on the messages and on the external `DataBlock` -/

/-- Whether the content a message streams from a file holds data: for a message
of the streamed-from-file branch whose content is read and decoded without error,
the line loop ends with `total_bytes > 0`. Every other message passes. -/
def msgStreamsData (env : Env) (blockInfo : DataMsg) : Bool :=
  match branchTaken blockInfo with
  | .streamedFromFile =>
    match readBuffer env blockInfo.path blockInfo.offset blockInfo.size with
    | .error _ => true
    | .ok line_buffer =>
      match readLines env (getlines line_buffer)
          { data_buf := [], total_bytes := 0, num_bytes := 0, num_elements := 0 } with
      | .error _ => true
      | .ok st => decide (0 < st.total_bytes)
  | _ => true

/-- Whether a call passes `msgStreamsData`; only `onDataReady` carries a message. -/
def Call.streamsData (env : Env) : Call → Bool
  | .onDataReady blockInfo => msgStreamsData env blockInfo
  | _ => true

/-- Modelled from the spec: what "hydrated" asks of the external `DataBlock`
(`Block.h` is not part of the sources): `isReady()` holds once the block has gone
through one of the three populating sequences of `Task::onDataReady`, which are
metadata, `alloc` and `readFromMem`; metadata, `alloc(8)` and the write of a scalar;
`alloc` of the total, the writes of one or more non-empty lines one after the
other, and metadata. -/
structure ReadyAfterHydration {B : Type} (ops : DataBlockOps B) : Prop where
  mapped : ∀ (length num_items size : Int) (path : String) (b : B),
    ops.isReady (ops.readFromMem path (ops.alloc size (ops.setNumItems num_items
      (ops.setLength length b)))) = true
  scalar : ∀ (bval : Int) (b : B),
    ops.isReady (ops.writeData (.int64 bval) 8 0 (ops.alloc 8 (ops.setNumItems 1
      (ops.setLength 1 b)))) = true
  streamed : ∀ (bufs : List (Nat × List Nat)) (num_elements : Nat) (b : B),
    bufs ≠ [] → (∀ buf ∈ bufs, 0 < buf.1) →
    ops.isReady (ops.setLength (num_elements * bufs.length)
      (ops.setNumItems bufs.length
        (writeLines ops bufs 0 (ops.alloc ((bufs.map Prod.fst).sum : Nat) b)))) = true

/-! ## The table and the list of input blocks -/

/-- Every block that is a value of `input_table` also occurs in `input_blocks`. -/
def TableInBlocks {B : Type} (t : Task B) : Prop :=
  ∀ kv ∈ t.input_table, kv.2 ∈ t.input_blocks

/-! ## A concrete block store for examples -/

/-- Modelled from the spec: a concrete `DataBlock` on which the model is evaluated
in examples. It keeps the metadata, the allocated size and the writes made to it,
and it is hydrated once its backing storage has been populated by `readFromMem`
or `writeData` (glossary, "Hydration"). -/
structure ExBlock where
  length : Int
  num_items : Int
  size : Int
  written : List (Nat × Nat × Payload)
  ready : Bool
  deriving DecidableEq, Repr

/-- The capability set of `ExBlock`. -/
def exOps : DataBlockOps ExBlock where
  isReady b := b.ready
  setLength n b := { b with length := n }
  setNumItems n b := { b with num_items := n }
  alloc n b := { b with size := n }
  readFromMem _ b := { b with ready := true }
  writeData src len offset b :=
    { b with written := b.written ++ [(offset, len, src)], ready := true }

/-- A block without data. -/
def emptyBlock : ExBlock :=
  { length := 0, num_items := 0, size := 0, written := [], ready := false }

/-- A block that already holds data. -/
def readyBlock : ExBlock :=
  { length := 1, num_items := 1, size := 8, written := [(0, 8, .int64 7)], ready := true }

/-- A block store whose odd addresses hold hydrated blocks and whose even
addresses hold blocks without data. -/
def exBlocks : Nat → ExBlock :=
  fun p => if p % 2 = 1 then readyBlock else emptyBlock

/-- Surroundings without any readable file: HDFS is not compiled in and no local
file opens. -/
def noFiles : Env where
  hdfsRead _ _ _ := .error "HDFS file is not supported"
  fileOpens _ := false
  fileRead _ _ _ := ""
  readLine _ _ _ := .ok ([], 0, 0)

/-- A message that carries only a partition id. -/
def bareMsg (partition_id : Int) : DataMsg :=
  { partition_id := partition_id, has_length := false, length := 0,
    has_num_items := false, num_items := 0, size := 0, offset := 0, path := "",
    has_bval := false, bval := 0 }

/-- A line decoder for examples: every character other than a blank is one element
of 4 bytes whose value is its character code; a line without such a character
decodes to nothing. The result is `(data, num_elements, num_bytes)`. -/
def exDecode (line : String) : List Nat × Nat × Nat :=
  let items := (line.data.filter (fun c => c ≠ ' ')).map Char.toNat
  (items, items.length, 4 * items.length)

/-- Surroundings with three local files and the line decoder `exDecode`. -/
def exFiles : Env where
  hdfsRead _ _ _ := .error "HDFS file is not supported"
  fileOpens path := path = "/data/part0" || path = "/data/gap" || path = "/data/blank"
  fileRead path _ _ :=
    if path = "/data/part0" then "1 2\n3 4\n"
    else if path = "/data/gap" then "1 2\n\n3 4\n"
    else "\n\n"
  readLine line _ _ := .ok (exDecode line)

/-- A message for a partition streamed from a local file (`length = -1`). -/
def fileMsg (partition_id : Int) (path : String) (size : Int) : DataMsg :=
  { partition_id := partition_id, has_length := true, length := -1,
    has_num_items := false, num_items := 0, size := size, offset := 0, path := path,
    has_bval := false, bval := 0 }

end acc_runtime

/-! ## `TaskManager` -/

namespace blaze

/-- Modelled from the spec: the members of `TaskManager` (§3) that its constructor
in `TaskManager.h` sets up. The member functions are defined in `TaskManager.cpp`,
which is not part of the sources. A `Task*` is a natural number and a `TaskQueue`
is a FIFO list, head first. -/
structure TaskManager where
  power : Bool
  lobbyWaitTime : Int
  doorWaitTime : Int
  nextTaskId : Int
  exeQueueLength : Int
  deltaDelay : Int
  app_queues : List (String × List Nat)
  execution_queue : List Nat
  deriving DecidableEq, Repr

/-- Embeds the constructor `TaskManager::TaskManager` (`TaskManager.h`, lines 29-42):
`power(true)`, the counters 0, both containers empty. -/
def TaskManager.construct : TaskManager :=
  { power := true, exeQueueLength := 0, nextTaskId := 0, lobbyWaitTime := 0,
    doorWaitTime := 0, deltaDelay := 0, app_queues := [], execution_queue := [] }

/-- Modelled from the spec: appending `task` to `app_queues[app_id]`, "creating the
queue if absent". -/
def appPush (qs : List (String × List Nat)) (app_id : String) (task : Nat) :
    List (String × List Nat) :=
  match qs with
  | [] => [(app_id, [task])]
  | (a, q) :: rest =>
    if a = app_id then (a, q ++ [task]) :: rest else (a, q) :: appPush rest app_id task

/-- Modelled from the spec: the head of the queue of `app_id`, when there is one. -/
def appHead (qs : List (String × List Nat)) (app_id : String) : Option Nat :=
  match qs with
  | [] => none
  | (a, q) :: rest => if a = app_id then q.head? else appHead rest app_id

/-- Modelled from the spec: the queues after the head of the queue of `app_id` is
popped. -/
def appPop (qs : List (String × List Nat)) (app_id : String) : List (String × List Nat) :=
  match qs with
  | [] => []
  | (a, q) :: rest => if a = app_id then (a, q.tail) :: rest else (a, q) :: appPop rest app_id

/-- Modelled from the spec: `enqueue(app_id, task)` of `TaskManager.cpp` (§4.2):
"appends `task` to `app_queues[app_id]`, creating the queue if absent. Does not
itself attempt admission". -/
def TaskManager.enqueue (app_id : String) (task : Nat) (m : TaskManager) : TaskManager :=
  { m with app_queues := appPush m.app_queues app_id task }

/-- Modelled from the spec: the promotion step of `schedule()` of `TaskManager.cpp`
(§4.2): "On promotion, the task is popped from its application queue, pushed onto
`execution_queue`, and `exeQueueLength` incremented." The admission policy is not
fixed by the spec; its decision, the application to promote from or none, is the
argument `candidate`. -/
def TaskManager.schedule (candidate : Option String) (m : TaskManager) : TaskManager :=
  match candidate with
  | none => m
  | some app_id =>
    match appHead m.app_queues app_id with
    | none => m
    | some task =>
      { m with app_queues := appPop m.app_queues app_id,
               execution_queue := m.execution_queue ++ [task],
               exeQueueLength := m.exeQueueLength + 1 }

/-- Modelled from the spec: `dequeue(task&) -> bool` of `TaskManager.cpp` (§4.2):
"pops the head of `execution_queue` into `task` if non-empty, decrementing
`exeQueueLength`; returns whether a task was obtained." The result is the returned
flag, the caller's reference after the call, and the manager after the call. -/
def TaskManager.dequeue (task : Option Nat) (m : TaskManager) :
    Bool × Option Nat × TaskManager :=
  match m.execution_queue with
  | [] => (false, task, m)
  | head :: rest =>
    (true, some head,
     { m with execution_queue := rest, exeQueueLength := m.exeQueueLength - 1 })

/-- The counter `exeQueueLength` equals the live length of `execution_queue`. -/
def TaskManager.LengthInv (m : TaskManager) : Prop :=
  m.exeQueueLength = m.execution_queue.length

end blaze

namespace acc_runtime

/-! ## Lemmas on the map operations -/

theorem mapFind_eq_none_iff (tbl : List (Int × Nat)) (k : Int) :
    mapFind tbl k = none ↔ k ∉ tbl.map Prod.fst := by
  induction tbl with
  | nil => simp [mapFind]
  | cons kv rest ih =>
    obtain ⟨k', v⟩ := kv
    by_cases hk : k = k'
    · simp [mapFind, hk]
    · simp [mapFind, hk, ih]

theorem mapFind_append_of_some (tbl more : List (Int × Nat)) (k : Int) (v : Nat)
    (h : mapFind tbl k = some v) : mapFind (tbl ++ more) k = some v := by
  induction tbl with
  | nil => simp [mapFind] at h
  | cons kv rest ih =>
    obtain ⟨k', v'⟩ := kv
    by_cases hk : k = k'
    · simpa [mapFind, hk] using h
    · simp only [mapFind, hk, if_false, List.cons_append] at h ⊢
      exact ih h

theorem mapFind_append_of_none (tbl more : List (Int × Nat)) (k : Int)
    (h : mapFind tbl k = none) : mapFind (tbl ++ more) k = mapFind more k := by
  induction tbl with
  | nil => rfl
  | cons kv rest ih =>
    obtain ⟨k', v'⟩ := kv
    by_cases hk : k = k'
    · simp [mapFind, hk] at h
    · simp only [mapFind, hk, if_false, List.cons_append] at h ⊢
      exact ih h

theorem mapFind_mapInsert_of_some (tbl : List (Int × Nat)) (k : Int) (v w : Nat)
    (h : mapFind tbl k = some v) : mapInsert tbl k w = tbl := by
  simp [mapInsert, h]

/-! ## Single calls -/

theorem addInputBlock_input_table {B : Type} (ops : DataBlockOps B) (p : Int) (b : Nat)
    (t : Task B) :
    (addInputBlock ops p b t).input_table = mapInsert t.input_table p b := by
  unfold addInputBlock
  dsimp only
  split_ifs <;> rfl

theorem addInputBlock_input_blocks {B : Type} (ops : DataBlockOps B) (p : Int) (b : Nat)
    (t : Task B) :
    (addInputBlock ops p b t).input_blocks = t.input_blocks ++ [b] := by
  unfold addInputBlock
  dsimp only
  split_ifs <;> rfl

theorem addInputBlock_blocks {B : Type} (ops : DataBlockOps B) (p : Int) (b : Nat)
    (t : Task B) : (addInputBlock ops p b t).blocks = t.blocks := by
  unfold addInputBlock
  dsimp only
  split_ifs <;> rfl

theorem addInputBlock_num_input {B : Type} (ops : DataBlockOps B) (p : Int) (b : Nat)
    (t : Task B) : (addInputBlock ops p b t).num_input = t.num_input := by
  unfold addInputBlock
  dsimp only
  split_ifs <;> rfl

theorem addInputBlock_num_ready {B : Type} (ops : DataBlockOps B) (p : Int) (b : Nat)
    (t : Task B) :
    (addInputBlock ops p b t).num_ready
      = if ops.isReady (t.blocks b) then t.num_ready + 1 else t.num_ready := by
  unfold addInputBlock
  dsimp only
  split_ifs <;> rfl

theorem addInputBlock_status {B : Type} (ops : DataBlockOps B) (p : Int) (b : Nat)
    (t : Task B) :
    (addInputBlock ops p b t).status
      = if ops.isReady (t.blocks b) = true ∧ t.num_ready + 1 = t.num_input then .READY
        else t.status := by
  unfold addInputBlock
  dsimp only
  split_ifs <;> simp_all

/-- The three outcomes of `onDataReady`: the partition is unknown, the hydration
throws, or the call returns the registered block after counting it. -/
theorem onDataReady_cases {B : Type} (ops : DataBlockOps B) (env : Env) (m : DataMsg)
    (t : Task B) :
    (mapFind t.input_table m.partition_id = none
        ∧ onDataReady ops env m t = (.error .didNotFindBlock, t))
    ∨ (∃ block e, mapFind t.input_table m.partition_id = some block
        ∧ ops.isReady (t.blocks block) = false
        ∧ hydrate ops env m (t.blocks block) = .error e
        ∧ onDataReady ops env m t = (.error e, t))
    ∨ (∃ block blocks1, mapFind t.input_table m.partition_id = some block
        ∧ (ops.isReady (t.blocks block) = true ∧ blocks1 = t.blocks
            ∨ ops.isReady (t.blocks block) = false
              ∧ ∃ blk, hydrate ops env m (t.blocks block) = .ok blk
                ∧ blocks1 = Function.update t.blocks block blk)
        ∧ onDataReady ops env m t
            = (.ok block,
               { t with blocks := blocks1, num_ready := t.num_ready + 1,
                        status := if t.num_ready + 1 = t.num_input then .READY
                                  else t.status })) := by
  cases hfind : mapFind t.input_table m.partition_id with
  | none => exact Or.inl ⟨rfl, by simp [onDataReady, hfind]⟩
  | some block =>
    right
    cases hr : ops.isReady (t.blocks block) with
    | true =>
      right
      refine ⟨block, t.blocks, rfl, Or.inl ⟨hr, rfl⟩, ?_⟩
      simp only [onDataReady, hfind, hr, Bool.not_true, Bool.false_eq_true, if_false]
      split_ifs <;> rfl
    | false =>
      cases hh : hydrate ops env m (t.blocks block) with
      | error e =>
        left
        exact ⟨block, e, rfl, hr, hh, by simp [onDataReady, hfind, hr, hh]⟩
      | ok blk =>
        right
        refine ⟨block, Function.update t.blocks block blk, rfl,
          Or.inr ⟨hr, blk, hh, rfl⟩, ?_⟩
        simp only [onDataReady, hfind, hr, hh, Bool.not_false, if_true]
        split_ifs <;> rfl

theorem getOutputBlock_status_rank {B : Type} (block : Option Nat) (t : Task B) :
    (getOutputBlock block t).2.2.status = t.status
      ∨ (getOutputBlock block t).2.2.status = .COMMITTED := by
  unfold getOutputBlock
  dsimp only
  split_ifs
  · exact Or.inr rfl
  · exact Or.inl rfl
  · exact Or.inl rfl

/-! ## C4: the status never moves backwards -/

/-- C4, as stated, fails: a task that was drained to `COMMITTED` before its single
input was counted is set back to `READY` by `addInputBlock` with a hydrated block. -/
theorem status_lowered_by_addInputBlock :
    let t0 : Task ExBlock := { Task.fresh 1 exBlocks with output_blocks := [9] }
    let t := Call.run exOps noFiles .getOutputBlock t0
    t.status = .COMMITTED
      ∧ (Call.run exOps noFiles (.addInputBlock 0 1) t).status = .READY
      ∧ (Call.run exOps noFiles (.addInputBlock 0 1) t).status.rank < t.status.rank := by
  decide

/-- C4 (amended): for a task whose status is `RUNNING` or `COMMITTED` only when
`num_ready >= num_input`, no call to `addInputBlock`, `onDataReady` or
`getOutputBlock` lowers the status in the order `INIT < READY < RUNNING < COMMITTED`,
and a `COMMITTED` task stays `COMMITTED`. -/
theorem status_never_lowers {B : Type} (ops : DataBlockOps B) (env : Env) (c : Call)
    (t : Task B)
    (h : t.status = .RUNNING ∨ t.status = .COMMITTED → t.num_input ≤ t.num_ready) :
    t.status.rank ≤ (c.run ops env t).status.rank
      ∧ (t.status = .COMMITTED → (c.run ops env t).status = .COMMITTED) := by
  have key : ∀ s : TaskStatus,
      s = (if t.num_ready + 1 = t.num_input then TaskStatus.READY else t.status) →
      t.status.rank ≤ s.rank ∧ (t.status = .COMMITTED → s = .COMMITTED) := by
    intro s hs
    by_cases heq : t.num_ready + 1 = t.num_input
    · rw [if_pos heq] at hs
      subst hs
      cases hst : t.status with
      | INIT => simp [TaskStatus.rank]
      | READY => simp [TaskStatus.rank]
      | RUNNING => have := h (Or.inl hst); omega
      | COMMITTED => have := h (Or.inr hst); omega
    · rw [if_neg heq] at hs
      subst hs
      exact ⟨le_refl _, fun hc => hc⟩
  cases c with
  | addInputBlock p b =>
    show t.status.rank ≤ (addInputBlock ops p b t).status.rank
      ∧ (t.status = .COMMITTED → (addInputBlock ops p b t).status = .COMMITTED)
    rw [addInputBlock_status]
    by_cases hr : ops.isReady (t.blocks b) = true
    · apply key
      by_cases heq : t.num_ready + 1 = t.num_input <;> simp [hr, heq]
    · simp [hr]
  | onDataReady m =>
    show t.status.rank ≤ (onDataReady ops env m t).2.status.rank
      ∧ (t.status = .COMMITTED → (onDataReady ops env m t).2.status = .COMMITTED)
    rcases onDataReady_cases ops env m t with ⟨_, hres⟩ | ⟨_, _, _, _, _, hres⟩
      | ⟨_, _, _, _, hres⟩
    · rw [hres]; exact ⟨le_refl _, fun hc => hc⟩
    · rw [hres]; exact ⟨le_refl _, fun hc => hc⟩
    · rw [hres]; exact key _ rfl
  | getOutputBlock =>
    show t.status.rank ≤ (getOutputBlock none t).2.2.status.rank
      ∧ (t.status = .COMMITTED → (getOutputBlock none t).2.2.status = .COMMITTED)
    rcases getOutputBlock_status_rank none t with hs | hs
    · rw [hs]; exact ⟨le_refl _, fun hc => hc⟩
    · rw [hs]
      refine ⟨?_, fun _ => rfl⟩
      cases t.status <;> simp [TaskStatus.rank]

/-- C4 (amended), at a committed task that receives one more hydrated block. -/
theorem status_never_lowers_witness :
    let t : Task ExBlock :=
      { Task.fresh 1 exBlocks with num_ready := 1, status := .COMMITTED }
    (t.status = .RUNNING ∨ t.status = .COMMITTED → t.num_input ≤ t.num_ready)
      ∧ t.status.rank ≤ (Call.run exOps noFiles (.addInputBlock 3 1) t).status.rank
      ∧ (t.status = .COMMITTED →
          (Call.run exOps noFiles (.addInputBlock 3 1) t).status = .COMMITTED) :=
  ⟨by decide,
   status_never_lowers exOps noFiles (.addInputBlock 3 1)
     { Task.fresh 1 exBlocks with num_ready := 1, status := .COMMITTED } (by decide)⟩

/-! ## C5: draining the output stack -/

theorem getOutputBlock_more {B : Type} (block : Option Nat) (t : Task B) (b1 bn : Nat)
    (mid : List Nat) (h : t.output_blocks = b1 :: (mid ++ [bn])) :
    getOutputBlock block t
      = (true, some bn, { t with output_blocks := b1 :: mid }) := by
  have hl : t.output_blocks.getLast? = some bn := by
    rw [h, ← List.cons_append, List.getLast?_append]
    rfl
  have hd : t.output_blocks.dropLast = b1 :: mid := by
    rw [h, ← List.cons_append, List.dropLast_concat]
  have hne : t.output_blocks ≠ [] := by rw [h]; simp
  simp [getOutputBlock, hl, hd, hne]

theorem getOutputBlock_last {B : Type} (block : Option Nat) (t : Task B) (b1 : Nat)
    (h : t.output_blocks = [b1]) :
    getOutputBlock block t
      = (false, some b1, { t with output_blocks := [], status := .COMMITTED }) := by
  simp [getOutputBlock, h]

theorem drainOutput_all {B : Type} (b1 : Nat) (rest : List Nat) :
    ∀ t : Task B, t.output_blocks = b1 :: rest →
      drainOutput (rest.length + 1) t
        = rest.reverse.map (fun b => (true, some b, t.status))
          ++ [(false, some b1, TaskStatus.COMMITTED)] := by
  induction rest using List.reverseRecOn with
  | nil =>
    intro t h
    simp [drainOutput, getOutputBlock_last none t b1 h]
  | append_singleton mid bn ih =>
    intro t h
    have hstep := getOutputBlock_more none t b1 bn mid h
    have hlen : (mid ++ [bn]).length + 1 = (mid.length + 1) + 1 := by simp
    rw [hlen, drainOutput]
    simp only [hstep]
    rw [ih { t with output_blocks := b1 :: mid } rfl]
    simp

/-- C5: when `output_blocks` holds the blocks `b1, b2, ..., bn` in push order
(`n >= 1`), `n` successive `getOutputBlock` calls yield `bn, ..., b2, b1` in this
order; each of the first `n - 1` calls returns `true` and leaves the status as it
was, and the `n`-th call returns `false` and leaves the status `COMMITTED`. -/
theorem getOutputBlock_drains_in_reverse {B : Type} (t : Task B) (b1 : Nat)
    (rest : List Nat) (h : t.output_blocks = b1 :: rest) :
    drainOutput t.output_blocks.length t
      = rest.reverse.map (fun b => (true, some b, t.status))
        ++ [(false, some b1, TaskStatus.COMMITTED)] := by
  rw [h, List.length_cons]
  exact drainOutput_all b1 rest t h

/-- C5, at a running task that holds the outputs 4, 5, 6. -/
theorem getOutputBlock_drains_in_reverse_witness :
    drainOutput 3
        ({ Task.fresh 0 exBlocks with status := .RUNNING, output_blocks := [4, 5, 6] })
      = [(true, some 6, TaskStatus.RUNNING), (true, some 5, TaskStatus.RUNNING),
         (false, some 4, TaskStatus.COMMITTED)] :=
  getOutputBlock_drains_in_reverse
    ({ Task.fresh 0 exBlocks with status := .RUNNING, output_blocks := [4, 5, 6] })
    4 [5, 6] rfl

/-! ## C6: unknown partition -/

/-- C6: when the partition id of the message is not a key of `input_table`,
`onDataReady` throws "Did not find block" (it returns no block) and the task,
with its counters, status, table, input blocks and block store, is unchanged. -/
theorem onDataReady_unknown_partition_fails {B : Type} (ops : DataBlockOps B) (env : Env)
    (m : DataMsg) (t : Task B) (h : m.partition_id ∉ t.input_table.map Prod.fst) :
    onDataReady ops env m t = (.error .didNotFindBlock, t) := by
  have hfind := (mapFind_eq_none_iff t.input_table m.partition_id).mpr h
  simp [onDataReady, hfind]

/-- C6, at a task that registered the partitions 0 and -1 and receives a message
for partition 5. -/
theorem onDataReady_unknown_partition_fails_witness :
    (bareMsg 5).partition_id
        ∉ (runCalls exOps noFiles [.addInputBlock 0 2, .addInputBlock (-1) 1]
            (Task.fresh 2 exBlocks)).input_table.map Prod.fst
      ∧ (onDataReady exOps noFiles (bareMsg 5)
          (runCalls exOps noFiles [.addInputBlock 0 2, .addInputBlock (-1) 1]
            (Task.fresh 2 exBlocks))).1 = .error .didNotFindBlock :=
  ⟨by decide,
   congrArg Prod.fst (onDataReady_unknown_partition_fails exOps noFiles (bareMsg 5)
    (runCalls exOps noFiles [.addInputBlock 0 2, .addInputBlock (-1) 1]
      (Task.fresh 2 exBlocks)) (by decide))⟩

/-! ## C7: broadcast message without payload -/

/-- C7, as stated, fails: when the registered broadcast block is already hydrated,
a message with neither `length` nor `bval` is not rejected; the call returns the
block and increments `num_ready`. -/
theorem onDataReady_invalid_broadcast_on_ready_block :
    (bareMsg (-1)).partition_id < 0
      ∧ (bareMsg (-1)).has_length = false ∧ (bareMsg (-1)).has_bval = false
      ∧ mapFind (addInputBlock exOps (-1) 1 (Task.fresh 3 exBlocks)).input_table (-1)
          = some 1
      ∧ (onDataReady exOps noFiles (bareMsg (-1))
          (addInputBlock exOps (-1) 1 (Task.fresh 3 exBlocks))).1 = .ok 1
      ∧ (addInputBlock exOps (-1) 1 (Task.fresh 3 exBlocks)).num_ready = 1
      ∧ (onDataReady exOps noFiles (bareMsg (-1))
          (addInputBlock exOps (-1) 1 (Task.fresh 3 exBlocks))).2.num_ready = 2 := by
  decide

/-- C7 (amended): for a message with `partition_id < 0` that is registered to a
block that is not hydrated, with neither `length` nor `bval` present, `onDataReady`
throws "Invalid broadcast data msg" and leaves the task unchanged; in particular
`num_ready` is not incremented. -/
theorem onDataReady_invalid_broadcast_fails {B : Type} (ops : DataBlockOps B) (env : Env)
    (m : DataMsg) (t : Task B) (block : Nat) (hneg : m.partition_id < 0)
    (hfind : mapFind t.input_table m.partition_id = some block)
    (hnot : ops.isReady (t.blocks block) = false)
    (hlen : m.has_length = false) (hbval : m.has_bval = false) :
    onDataReady ops env m t = (.error .invalidBroadcastMsg, t) := by
  have hh : hydrate ops env m (t.blocks block) = .error .invalidBroadcastMsg := by
    simp [hydrate, hneg, hlen, hbval]
  simp [onDataReady, hfind, hnot, hh]

/-- C7 (amended), at a task whose broadcast partition -1 holds a block without
data. -/
theorem onDataReady_invalid_broadcast_fails_witness :
    (onDataReady exOps noFiles (bareMsg (-1))
        (addInputBlock exOps (-1) 2 (Task.fresh 3 exBlocks))).1
      = .error .invalidBroadcastMsg :=
  congrArg Prod.fst (onDataReady_invalid_broadcast_fails exOps noFiles (bareMsg (-1))
    (addInputBlock exOps (-1) 2 (Task.fresh 3 exBlocks)) 2
    (by decide) (by decide) (by decide) (by decide) (by decide))

/-! ## C8: attaching under a partition id that is already registered -/

/-- C8, as stated, fails: partition 0 maps to block 2, and after
`addInputBlock(0, 3)` the table still maps 0 to block 2, which is what
`getInputBlock(0)` returns. -/
theorem addInputBlock_duplicate_keeps_first :
    mapFind (addInputBlock exOps 0 2 (Task.fresh 2 exBlocks)).input_table 0 = some 2
      ∧ mapFind (addInputBlock exOps 0 3
          (addInputBlock exOps 0 2 (Task.fresh 2 exBlocks))).input_table 0 ≠ some 3
      ∧ (getInputBlock 0 (addInputBlock exOps 0 3
          (addInputBlock exOps 0 2 (Task.fresh 2 exBlocks)))).1 = some 2 := by
  decide

/-- C8 (amended): attaching under a partition id that is already registered does
not overwrite the map entry: when `p` maps to `b1`, after `addInputBlock(p, b2)` the
table is the same, `getInputBlock(p)` still returns `b1`, and `b2` is only appended
to `input_blocks`. -/
theorem addInputBlock_duplicate_keeps_entry {B : Type} (ops : DataBlockOps B) (t : Task B)
    (p : Int) (b1 b2 : Nat) (h : mapFind t.input_table p = some b1) :
    (addInputBlock ops p b2 t).input_table = t.input_table
      ∧ (getInputBlock p (addInputBlock ops p b2 t)).1 = some b1
      ∧ (addInputBlock ops p b2 t).input_blocks = t.input_blocks ++ [b2] := by
  have htbl : (addInputBlock ops p b2 t).input_table = t.input_table := by
    rw [addInputBlock_input_table, mapFind_mapInsert_of_some _ _ _ _ h]
  refine ⟨htbl, ?_, addInputBlock_input_blocks ops p b2 t⟩
  simp [getInputBlock, htbl, h]

/-- C8 (amended), at a task in which partition 0 maps to block 2. -/
theorem addInputBlock_duplicate_keeps_entry_witness :
    (addInputBlock exOps 0 3 (addInputBlock exOps 0 2 (Task.fresh 2 exBlocks))).input_table
        = (addInputBlock exOps 0 2 (Task.fresh 2 exBlocks)).input_table
      ∧ (getInputBlock 0 (addInputBlock exOps 0 3
          (addInputBlock exOps 0 2 (Task.fresh 2 exBlocks)))).1 = some 2
      ∧ (addInputBlock exOps 0 3 (addInputBlock exOps 0 2
          (Task.fresh 2 exBlocks))).input_blocks
        = (addInputBlock exOps 0 2 (Task.fresh 2 exBlocks)).input_blocks ++ [3] :=
  addInputBlock_duplicate_keeps_entry exOps
    (addInputBlock exOps 0 2 (Task.fresh 2 exBlocks)) 0 2 3 (by decide)

/-! ## C9: attaching a hydrated block twice -/

/-- C9, as stated, fails: attaching the hydrated block 1 under partition 0 once
gives `num_ready = 1`, attaching it twice gives `num_ready = 2`. -/
theorem addInputBlock_twice_counts_twice :
    exOps.isReady (exBlocks 1) = true
      ∧ (addInputBlock exOps 0 1 (Task.fresh 5 exBlocks)).num_ready = 1
      ∧ (addInputBlock exOps 0 1
          (addInputBlock exOps 0 1 (Task.fresh 5 exBlocks))).num_ready = 2 := by
  decide

/-- C9 (amended): every `addInputBlock` call with a hydrated block increments
`num_ready`, also under a partition id that is already registered: `num_ready`
after calling `addInputBlock(p, b)` twice is `num_ready` after calling it once,
plus one. -/
theorem addInputBlock_twice_num_ready {B : Type} (ops : DataBlockOps B) (t : Task B)
    (p : Int) (b : Nat) (h : ops.isReady (t.blocks b) = true) :
    (addInputBlock ops p b (addInputBlock ops p b t)).num_ready
      = (addInputBlock ops p b t).num_ready + 1 := by
  rw [addInputBlock_num_ready ops p b (addInputBlock ops p b t), addInputBlock_blocks, h]
  simp

/-- C9 (amended), at a fresh task and the hydrated block 1. -/
theorem addInputBlock_twice_num_ready_witness :
    (addInputBlock exOps 0 1 (addInputBlock exOps 0 1 (Task.fresh 5 exBlocks))).num_ready
      = (addInputBlock exOps 0 1 (Task.fresh 5 exBlocks)).num_ready + 1 :=
  addInputBlock_twice_num_ready exOps (Task.fresh 5 exBlocks) 0 1 (by decide)

/-! ## C10: the target block is already hydrated -/

/-- C10: when the partition id of the message is registered to a block that is
already hydrated, `onDataReady` returns that block, leaves the block store as it is
(no `setLength`, `setNumItems`, `alloc`, write or read, whatever the message holds),
increments `num_ready` by one, and sets the status to `READY` exactly when the new
`num_ready` equals `num_input` (otherwise the status is kept). -/
theorem onDataReady_on_ready_block {B : Type} (ops : DataBlockOps B) (env : Env)
    (m : DataMsg) (t : Task B) (block : Nat)
    (hfind : mapFind t.input_table m.partition_id = some block)
    (hready : ops.isReady (t.blocks block) = true) :
    onDataReady ops env m t
      = (.ok block,
         { t with num_ready := t.num_ready + 1,
                  status := if t.num_ready + 1 = t.num_input then .READY else t.status }) := by
  simp only [onDataReady, hfind, hready, Bool.not_true, Bool.false_eq_true, if_false]
  split_ifs <;> rfl

/-- C10, at a task with two inputs: partition 0 holds the hydrated block 1 and was
counted when attached; a data-ready message for it returns block 1, brings
`num_ready` to 2 and the status to `READY`, and block 1 is as before. -/
theorem onDataReady_on_ready_block_witness :
    (onDataReady exOps noFiles (bareMsg 0)
        (addInputBlock exOps 0 1 (Task.fresh 2 exBlocks))).1 = .ok 1
      ∧ (onDataReady exOps noFiles (bareMsg 0)
          (addInputBlock exOps 0 1 (Task.fresh 2 exBlocks))).2.num_ready = 2
      ∧ (onDataReady exOps noFiles (bareMsg 0)
          (addInputBlock exOps 0 1 (Task.fresh 2 exBlocks))).2.status = .READY
      ∧ (onDataReady exOps noFiles (bareMsg 0)
          (addInputBlock exOps 0 1 (Task.fresh 2 exBlocks))).2.blocks 1 = readyBlock := by
  have h := onDataReady_on_ready_block exOps noFiles (bareMsg 0)
    (addInputBlock exOps 0 1 (Task.fresh 2 exBlocks)) 1 (by decide) (by decide)
  rw [h]
  decide

/-! ## C3: when the status is `READY` -/

/-- What the input calls maintain from a fresh task on: the counter is not negative,
the status is `INIT` or `READY`, and it is `READY` exactly when the counter has
reached a positive `num_input`. -/
theorem ready_invariant_step {B : Type} (ops : DataBlockOps B) (env : Env) (c : Call)
    (t : Task B) (hc : c.isInput = true)
    (h : (t.status = .INIT ∨ t.status = .READY) ∧ 0 ≤ t.num_ready
      ∧ (t.status = .READY ↔ 1 ≤ t.num_input ∧ t.num_input ≤ t.num_ready)) :
    (c.run ops env t).num_input = t.num_input
      ∧ ((c.run ops env t).status = .INIT ∨ (c.run ops env t).status = .READY)
      ∧ 0 ≤ (c.run ops env t).num_ready
      ∧ ((c.run ops env t).status = .READY
          ↔ 1 ≤ (c.run ops env t).num_input
            ∧ (c.run ops env t).num_input ≤ (c.run ops env t).num_ready) := by
  obtain ⟨hst, hpos, hiff⟩ := h
  have counted : ∀ s : TaskStatus,
      s = (if t.num_ready + 1 = t.num_input then TaskStatus.READY else t.status) →
      (s = .INIT ∨ s = .READY) ∧ 0 ≤ t.num_ready + 1
        ∧ (s = .READY ↔ 1 ≤ t.num_input ∧ t.num_input ≤ t.num_ready + 1) := by
    intro s hs
    by_cases heq : t.num_ready + 1 = t.num_input
    · rw [if_pos heq] at hs
      subst hs
      refine ⟨Or.inr rfl, by omega, ?_⟩
      constructor
      · intro _; omega
      · intro _; rfl
    · rw [if_neg heq] at hs
      subst hs
      refine ⟨hst, by omega, ?_⟩
      rw [hiff]
      constructor
      · rintro ⟨h1, h2⟩; exact ⟨h1, by omega⟩
      · rintro ⟨h1, h2⟩; exact ⟨h1, by omega⟩
  cases c with
  | addInputBlock p b =>
    show (addInputBlock ops p b t).num_input = t.num_input
      ∧ ((addInputBlock ops p b t).status = .INIT ∨ (addInputBlock ops p b t).status = .READY)
      ∧ 0 ≤ (addInputBlock ops p b t).num_ready
      ∧ ((addInputBlock ops p b t).status = .READY
          ↔ 1 ≤ (addInputBlock ops p b t).num_input
            ∧ (addInputBlock ops p b t).num_input ≤ (addInputBlock ops p b t).num_ready)
    rw [addInputBlock_status, addInputBlock_num_ready, addInputBlock_num_input]
    refine ⟨rfl, ?_⟩
    by_cases hr : ops.isReady (t.blocks b) = true
    · simp only [hr, true_and, if_true]
      exact counted _ rfl
    · simp only [hr, false_and, if_false, Bool.false_eq_true]
      exact ⟨hst, hpos, hiff⟩
  | onDataReady m =>
    show (onDataReady ops env m t).2.num_input = t.num_input
      ∧ ((onDataReady ops env m t).2.status = .INIT ∨ (onDataReady ops env m t).2.status = .READY)
      ∧ 0 ≤ (onDataReady ops env m t).2.num_ready
      ∧ ((onDataReady ops env m t).2.status = .READY
          ↔ 1 ≤ (onDataReady ops env m t).2.num_input
            ∧ (onDataReady ops env m t).2.num_input ≤ (onDataReady ops env m t).2.num_ready)
    rcases onDataReady_cases ops env m t with ⟨_, hres⟩ | ⟨_, _, _, _, _, hres⟩
      | ⟨_, _, _, _, hres⟩
    · rw [hres]; exact ⟨rfl, hst, hpos, hiff⟩
    · rw [hres]; exact ⟨rfl, hst, hpos, hiff⟩
    · rw [hres]; exact ⟨rfl, counted _ rfl⟩
  | getOutputBlock => simp [Call.isInput] at hc

theorem ready_invariant_run {B : Type} (ops : DataBlockOps B) (env : Env) :
    ∀ (calls : List Call) (t : Task B), (∀ c ∈ calls, c.isInput = true) →
      ((t.status = .INIT ∨ t.status = .READY) ∧ 0 ≤ t.num_ready
        ∧ (t.status = .READY ↔ 1 ≤ t.num_input ∧ t.num_input ≤ t.num_ready)) →
      (runCalls ops env calls t).num_input = t.num_input
        ∧ ((runCalls ops env calls t).status = .INIT
            ∨ (runCalls ops env calls t).status = .READY)
        ∧ 0 ≤ (runCalls ops env calls t).num_ready
        ∧ ((runCalls ops env calls t).status = .READY
            ↔ 1 ≤ (runCalls ops env calls t).num_input
              ∧ (runCalls ops env calls t).num_input
                  ≤ (runCalls ops env calls t).num_ready) := by
  intro calls
  induction calls with
  | nil => intro t _ h; exact ⟨rfl, h⟩
  | cons c cs ih =>
    intro t hin h
    have hstep := ready_invariant_step ops env c t (hin c (List.mem_cons_self _ _)) h
    have hrest := ih (c.run ops env t) (fun c' hc' => hin c' (List.mem_cons_of_mem _ hc'))
      hstep.2
    rw [runCalls]
    exact ⟨hrest.1.trans hstep.1, hrest.2⟩

/-- C3, as stated, fails in both directions: a fresh task with `num_input = 0` has
`num_ready == num_input` and status `INIT`; and a task with `num_input = 1` whose
hydrated block is counted on attach and again by `onDataReady` has status `READY`
with `num_ready = 2`. -/
theorem ready_iff_num_ready_eq_fails :
    ((runCalls exOps noFiles [] (Task.fresh 0 exBlocks)).num_ready
        = (runCalls exOps noFiles [] (Task.fresh 0 exBlocks)).num_input
      ∧ (runCalls exOps noFiles [] (Task.fresh 0 exBlocks)).status ≠ .READY)
    ∧ ((runCalls exOps noFiles [.addInputBlock 0 1, .onDataReady (bareMsg 0)]
          (Task.fresh 1 exBlocks)).status = .READY
      ∧ (runCalls exOps noFiles [.addInputBlock 0 1, .onDataReady (bareMsg 0)]
          (Task.fresh 1 exBlocks)).num_ready
        ≠ (runCalls exOps noFiles [.addInputBlock 0 1, .onDataReady (bareMsg 0)]
          (Task.fresh 1 exBlocks)).num_input) := by
  decide

/-- C3 (amended): for every task state reachable from a freshly constructed task
by a finite sequence of `addInputBlock` and `onDataReady` calls, the status is
`READY` if and only if `num_ready` has reached `num_input` and `num_input` is at
least 1 (`1 <= num_input <= num_ready`); otherwise the status is `INIT`. -/
theorem ready_iff_num_ready_reached {B : Type} (ops : DataBlockOps B) (env : Env)
    (calls : List Call) (num_input : Int) (blocks : Nat → B)
    (hin : ∀ c ∈ calls, c.isInput = true) :
    ((runCalls ops env calls (Task.fresh num_input blocks)).status = .READY
        ↔ 1 ≤ (runCalls ops env calls (Task.fresh num_input blocks)).num_input
          ∧ (runCalls ops env calls (Task.fresh num_input blocks)).num_input
              ≤ (runCalls ops env calls (Task.fresh num_input blocks)).num_ready)
      ∧ ((runCalls ops env calls (Task.fresh num_input blocks)).status ≠ .READY
          → (runCalls ops env calls (Task.fresh num_input blocks)).status = .INIT) := by
  have h := ready_invariant_run ops env calls (Task.fresh num_input blocks) hin
    ⟨Or.inl rfl, le_refl _, by simp [Task.fresh]; omega⟩
  refine ⟨h.2.2.2, fun hne => ?_⟩
  rcases h.2.1 with h1 | h1
  · exact h1
  · exact absurd h1 hne

/-- C3 (amended), at a task with two inputs: the hydrated block 1 is attached, the
block 2 without data is attached and then hydrated by a scalar broadcast message. -/
theorem ready_iff_num_ready_reached_witness :
    (runCalls exOps noFiles
        [.addInputBlock 0 1, .addInputBlock (-1) 2,
         .onDataReady { bareMsg (-1) with has_bval := true, bval := 42 }]
        (Task.fresh 2 exBlocks)).status = .READY :=
  ((ready_iff_num_ready_reached exOps noFiles
      [.addInputBlock 0 1, .addInputBlock (-1) 2,
       .onDataReady { bareMsg (-1) with has_bval := true, bval := 42 }]
      2 exBlocks (by decide)).1).mpr (by decide)

/-! ## The calling protocol: every partition attached once and counted once -/

theorem mapFind_mem_keys (tbl : List (Int × Nat)) (k : Int) (v : Nat)
    (h : mapFind tbl k = some v) : k ∈ tbl.map Prod.fst := by
  by_contra hk
  rw [(mapFind_eq_none_iff tbl k).mpr hk] at h
  cases h

theorem mapFind_of_mem_keys (tbl : List (Int × Nat)) (k : Int)
    (h : k ∈ tbl.map Prod.fst) : ∃ v, mapFind tbl k = some v := by
  cases hf : mapFind tbl k with
  | none => exact absurd h ((mapFind_eq_none_iff tbl k).mp hf)
  | some v => exact ⟨v, rfl⟩

theorem mapFind_of_mem_nodup (tbl : List (Int × Nat)) (k : Int) (v : Nat)
    (hnd : (tbl.map Prod.fst).Nodup) (h : (k, v) ∈ tbl) : mapFind tbl k = some v := by
  induction tbl with
  | nil => simp at h
  | cons kv rest ih =>
    obtain ⟨k', v'⟩ := kv
    simp only [List.map_cons, List.nodup_cons] at hnd
    rcases List.mem_cons.mp h with heq | hmem
    · cases heq
      simp [mapFind]
    · have hne : k ≠ k' := by
        rintro rfl
        exact hnd.1 (List.mem_map.mpr ⟨(k, v), hmem, rfl⟩)
      simp only [mapFind, hne, if_false]
      exact ih hnd.2 hmem

theorem mapInsert_of_none (tbl : List (Int × Nat)) (k : Int) (v : Nat)
    (h : mapFind tbl k = none) : mapInsert tbl k v = tbl ++ [(k, v)] := by
  simp [mapInsert, h]

theorem getOutputBlock_frame {B : Type} (block : Option Nat) (t : Task B) :
    (getOutputBlock block t).2.2.num_input = t.num_input
      ∧ (getOutputBlock block t).2.2.num_ready = t.num_ready
      ∧ (getOutputBlock block t).2.2.input_blocks = t.input_blocks
      ∧ (getOutputBlock block t).2.2.input_table = t.input_table
      ∧ (getOutputBlock block t).2.2.blocks = t.blocks := by
  unfold getOutputBlock
  dsimp only
  split_ifs <;> exact ⟨rfl, rfl, rfl, rfl, rfl⟩

theorem onDataReady_frame {B : Type} (ops : DataBlockOps B) (env : Env) (m : DataMsg)
    (t : Task B) :
    (onDataReady ops env m t).2.num_input = t.num_input
      ∧ (onDataReady ops env m t).2.input_blocks = t.input_blocks
      ∧ (onDataReady ops env m t).2.input_table = t.input_table := by
  rcases onDataReady_cases ops env m t with ⟨_, hres⟩ | ⟨_, _, _, _, _, hres⟩
    | ⟨_, _, _, _, hres⟩ <;> rw [hres] <;> exact ⟨rfl, rfl, rfl⟩

theorem callRun_num_input {B : Type} (ops : DataBlockOps B) (env : Env) (c : Call)
    (t : Task B) : (c.run ops env t).num_input = t.num_input := by
  cases c with
  | addInputBlock p b => exact addInputBlock_num_input ops p b t
  | onDataReady m => exact (onDataReady_frame ops env m t).1
  | getOutputBlock => exact (getOutputBlock_frame none t).1

theorem callRun_input_blocks_length {B : Type} (ops : DataBlockOps B) (env : Env)
    (c : Call) (t : Task B) :
    (c.run ops env t).input_blocks.length
      = t.input_blocks.length + (if c.isAdd then 1 else 0) := by
  cases c with
  | addInputBlock p b =>
    show (addInputBlock ops p b t).input_blocks.length = _
    rw [addInputBlock_input_blocks]
    simp [Call.isAdd]
  | onDataReady m =>
    show (onDataReady ops env m t).2.input_blocks.length = _
    rw [(onDataReady_frame ops env m t).2.1]
    simp [Call.isAdd]
  | getOutputBlock =>
    show (getOutputBlock none t).2.2.input_blocks.length = _
    rw [(getOutputBlock_frame none t).2.2.1]
    simp [Call.isAdd]

theorem runCalls_num_input {B : Type} (ops : DataBlockOps B) (env : Env) :
    ∀ (calls : List Call) (t : Task B),
      (runCalls ops env calls t).num_input = t.num_input := by
  intro calls
  induction calls with
  | nil => intro t; rfl
  | cons c cs ih =>
    intro t
    rw [runCalls, ih, callRun_num_input]

theorem runCalls_input_blocks_length {B : Type} (ops : DataBlockOps B) (env : Env) :
    ∀ (calls : List Call) (t : Task B),
      (runCalls ops env calls t).input_blocks.length
        = t.input_blocks.length + (calls.filter Call.isAdd).length := by
  intro calls
  induction calls with
  | nil => intro t; simp [runCalls]
  | cons c cs ih =>
    intro t
    rw [runCalls, ih, callRun_input_blocks_length]
    cases hc : c.isAdd <;> simp [List.filter, hc]; omega

theorem countInv_addInputBlock {B : Type} (ops : DataBlockOps B) (p : Int) (b : Nat)
    (t : Task B) (counted : List Int) (hinv : CountInv t counted)
    (hnew : mapFind t.input_table p = none) :
    CountInv (addInputBlock ops p b t)
      (if ops.isReady (t.blocks b) then p :: counted else counted) := by
  obtain ⟨hnd, hsub, hkeys, hnum, hblocks⟩ := hinv
  have hp : p ∉ t.input_table.map Prod.fst := (mapFind_eq_none_iff _ _).mp hnew
  have htbl : (addInputBlock ops p b t).input_table = t.input_table ++ [(p, b)] := by
    rw [addInputBlock_input_table, mapInsert_of_none _ _ _ hnew]
  unfold CountInv
  rw [htbl, addInputBlock_num_ready, addInputBlock_input_blocks]
  have hkeys' : ((t.input_table ++ [(p, b)]).map Prod.fst).Nodup := by
    rw [List.map_append, List.nodup_append]
    refine ⟨hkeys, by simp, ?_⟩
    intro a ha hb
    simp only [List.map_cons, List.map_nil, List.mem_singleton] at hb
    subst hb
    exact hp ha
  have hblocks' : t.input_blocks ++ [b] = (t.input_table ++ [(p, b)]).map Prod.snd := by
    rw [List.map_append, hblocks]
    rfl
  by_cases hr : ops.isReady (t.blocks b) = true
  · simp only [hr, if_true]
    refine ⟨List.nodup_cons.mpr ⟨fun hc => hp (hsub p hc), hnd⟩, ?_, hkeys', ?_, hblocks'⟩
    · intro q hq
      rcases List.mem_cons.mp hq with rfl | hq
      · simp
      · rw [List.map_append]
        exact List.mem_append_left _ (hsub q hq)
    · rw [hnum]
      simp
  · simp only [hr, if_false, Bool.false_eq_true]
    refine ⟨hnd, ?_, hkeys', hnum, hblocks'⟩
    intro q hq
    rw [List.map_append]
    exact List.mem_append_left _ (hsub q hq)

theorem hydInv_addInputBlock {B : Type} (ops : DataBlockOps B) (p : Int) (b : Nat)
    (t : Task B) (counted : List Int) (hinv : CountInv t counted)
    (hhyd : HydInv ops t counted) (hnew : mapFind t.input_table p = none) :
    HydInv ops (addInputBlock ops p b t)
      (if ops.isReady (t.blocks b) then p :: counted else counted) := by
  have htbl : (addInputBlock ops p b t).input_table = t.input_table ++ [(p, b)] := by
    rw [addInputBlock_input_table, mapInsert_of_none _ _ _ hnew]
  have hold : ∀ q ∈ counted, ∀ b',
      mapFind (t.input_table ++ [(p, b)]) q = some b' → ops.isReady (t.blocks b') = true := by
    intro q hq b' hf
    obtain ⟨v, hv⟩ := mapFind_of_mem_keys _ _ (hinv.2.1 q hq)
    rw [mapFind_append_of_some _ _ _ _ hv] at hf
    cases hf
    exact hhyd q hq _ hv
  intro q hq b' hf
  rw [htbl] at hf
  rw [addInputBlock_blocks]
  by_cases hr : ops.isReady (t.blocks b) = true
  · simp only [hr, if_true] at hq
    rcases List.mem_cons.mp hq with rfl | hq
    · rw [mapFind_append_of_none _ _ _ hnew] at hf
      simp only [mapFind, if_true] at hf
      cases hf
      exact hr
    · exact hold q hq b' hf
  · simp only [hr, if_false, Bool.false_eq_true] at hq
    exact hold q hq b' hf

theorem onDataReady_error_task {B : Type} (ops : DataBlockOps B) (env : Env) (m : DataMsg)
    (t : Task B) (e : TaskError) (h : (onDataReady ops env m t).1 = .error e) :
    (onDataReady ops env m t).2 = t := by
  rcases onDataReady_cases ops env m t with ⟨_, hres⟩ | ⟨_, _, _, _, _, hres⟩
    | ⟨_, _, _, _, hres⟩
  · rw [hres]
  · rw [hres]
  · rw [hres] at h
    cases h

theorem countInv_onDataReady_ok {B : Type} (ops : DataBlockOps B) (env : Env) (m : DataMsg)
    (t : Task B) (counted : List Int) (block : Nat) (hinv : CountInv t counted)
    (hres : (onDataReady ops env m t).1 = .ok block) (hnew : m.partition_id ∉ counted) :
    CountInv (onDataReady ops env m t).2 (m.partition_id :: counted) := by
  obtain ⟨hnd, hsub, hkeys, hnum, hblocks⟩ := hinv
  rcases onDataReady_cases ops env m t with ⟨_, hr⟩ | ⟨_, _, _, _, _, hr⟩
    | ⟨blk, blocks1, hfind, _, hr⟩
  · rw [hr] at hres; cases hres
  · rw [hr] at hres; cases hres
  · rw [hr]
    refine ⟨List.nodup_cons.mpr ⟨hnew, hnd⟩, ?_, hkeys, ?_, hblocks⟩
    · intro q hq
      rcases List.mem_cons.mp hq with rfl | hq
      · exact mapFind_mem_keys _ _ _ hfind
      · exact hsub q hq
    · show t.num_ready + 1 = ((m.partition_id :: counted).length : Int)
      rw [hnum]
      simp

theorem hydInv_onDataReady_ok {B : Type} (ops : DataBlockOps B) (env : Env) (m : DataMsg)
    (t : Task B) (counted : List Int) (block : Nat) (hhyd : HydInv ops t counted)
    (hres : (onDataReady ops env m t).1 = .ok block)
    (hleft : ops.isReady ((onDataReady ops env m t).2.blocks block) = true) :
    HydInv ops (onDataReady ops env m t).2 (m.partition_id :: counted) := by
  rcases onDataReady_cases ops env m t with ⟨_, hr⟩ | ⟨_, _, _, _, _, hr⟩
    | ⟨blk, blocks1, hfind, hblocks, hr⟩
  · rw [hr] at hres; cases hres
  · rw [hr] at hres; cases hres
  · rw [hr] at hres hleft ⊢
    cases hres
    intro q hq b hf
    have hf' : mapFind t.input_table q = some b := hf
    show ops.isReady (blocks1 b) = true
    rcases List.mem_cons.mp hq with rfl | hq
    · rw [hfind] at hf'
      cases hf'
      exact hleft
    · have hb := hhyd q hq b hf'
      rcases hblocks with ⟨_, rfl⟩ | ⟨hnot, blk', _, rfl⟩
      · exact hb
      · have hne : b ≠ block := by
          rintro rfl
          rw [hnot] at hb
          cases hb
        rw [Function.update_noteq hne]
        exact hb

/-- Running a call sequence that follows the protocol keeps the bookkeeping, and
keeps every counted block hydrated when every returning `onDataReady` leaves its
block hydrated. -/
theorem countsOnce_run {B : Type} (ops : DataBlockOps B) (env : Env) :
    ∀ (calls : List Call) (t : Task B) (counted : List Int), CountInv t counted →
      countsOnce ops env calls t counted = true →
      ∃ counted', CountInv (runCalls ops env calls t) counted'
        ∧ (HydInv ops t counted → hydratesOnReturn ops env calls t = true →
            HydInv ops (runCalls ops env calls t) counted') := by
  intro calls
  induction calls with
  | nil =>
    intro t counted hinv _
    exact ⟨counted, hinv, fun h _ => h⟩
  | cons c cs ih =>
    intro t counted hinv honce
    cases c with
    | addInputBlock p b =>
      simp only [countsOnce, Bool.and_eq_true, Option.isNone_iff_eq_none] at honce
      obtain ⟨counted', hc, hh⟩ := ih _ _ (countInv_addInputBlock ops p b t counted hinv
        honce.1) honce.2
      refine ⟨counted', hc, fun hhyd hret => hh ?_ ?_⟩
      · exact hydInv_addInputBlock ops p b t counted hinv hhyd honce.1
      · simpa [hydratesOnReturn] using hret
    | onDataReady m =>
      cases hres : (onDataReady ops env m t).1 with
      | error e =>
        have htask := onDataReady_error_task ops env m t e hres
        simp only [countsOnce, hres] at honce
        rw [htask] at honce
        obtain ⟨counted', hc, hh⟩ := ih t counted hinv honce
        refine ⟨counted', ?_, fun hhyd hret => ?_⟩
        · show CountInv (runCalls ops env cs (onDataReady ops env m t).2) counted'
          rw [htask]; exact hc
        · show HydInv ops (runCalls ops env cs (onDataReady ops env m t).2) counted'
          simp only [hydratesOnReturn, hres, Bool.true_and] at hret
          rw [htask] at hret ⊢
          exact hh hhyd hret
      | ok block =>
        simp only [countsOnce, hres, Bool.and_eq_true, Bool.not_eq_true'] at honce
        have hnew : m.partition_id ∉ counted := by
          intro hmem
          have hc : counted.contains m.partition_id = true := List.elem_eq_true_of_mem hmem
          rw [honce.1] at hc
          cases hc
        obtain ⟨counted', hc, hh⟩ := ih _ _
          (countInv_onDataReady_ok ops env m t counted block hinv hres hnew) honce.2
        refine ⟨counted', hc, fun hhyd hret => hh ?_ ?_⟩
        · simp only [hydratesOnReturn, hres, Bool.and_eq_true] at hret
          exact hydInv_onDataReady_ok ops env m t counted block hhyd hres hret.1
        · simp only [hydratesOnReturn, hres, Bool.and_eq_true] at hret
          exact hret.2
    | getOutputBlock =>
      simp only [countsOnce] at honce
      obtain ⟨hni, hnr, hib, hit, hbl⟩ := getOutputBlock_frame none t
      have hinv' : CountInv (getOutputBlock none t).2.2 counted := by
        unfold CountInv
        rw [hnr, hib, hit]
        exact hinv
      obtain ⟨counted', hc, hh⟩ := ih _ _ hinv' honce
      refine ⟨counted', hc, fun hhyd hret => hh ?_ ?_⟩
      · intro q hq b hf
        rw [hit] at hf
        rw [hbl]
        exact hhyd q hq b hf
      · simpa [hydratesOnReturn] using hret

theorem countInv_fresh {B : Type} (num_input : Int) (blocks : Nat → B) :
    CountInv (Task.fresh num_input blocks) [] := by
  simp [CountInv, Task.fresh]

/-! ## C1: `num_ready` and `num_input` -/

/-- C1, as stated, fails: with `num_input = 1`, a hydrated block is counted when it
is attached and counted again by `onDataReady` for the same partition, which leaves
`num_ready = 2`. -/
theorem num_ready_exceeds_num_input :
    (runCalls exOps noFiles [.addInputBlock 0 1, .onDataReady (bareMsg 0)]
        (Task.fresh 1 exBlocks)).num_ready = 2
      ∧ (runCalls exOps noFiles [.addInputBlock 0 1, .onDataReady (bareMsg 0)]
        (Task.fresh 1 exBlocks)).num_input = 1
      ∧ ¬ (runCalls exOps noFiles [.addInputBlock 0 1, .onDataReady (bareMsg 0)]
          (Task.fresh 1 exBlocks)).num_ready
        ≤ (runCalls exOps noFiles [.addInputBlock 0 1, .onDataReady (bareMsg 0)]
          (Task.fresh 1 exBlocks)).num_input := by
  decide

/-- C1 (amended): for every task state reachable from a freshly constructed task by
a finite sequence of `addInputBlock`, `onDataReady` and `getOutputBlock` calls in
which no partition id is attached twice, no partition id is counted twice (a
partition is counted when it is attached with a hydrated block and when an
`onDataReady` call for it returns) and at most `num_input` blocks are attached,
`num_ready` does not exceed `num_input`. -/
theorem num_ready_le_num_input {B : Type} (ops : DataBlockOps B) (env : Env)
    (calls : List Call) (num_input : Int) (blocks : Nat → B)
    (honce : countsOnce ops env calls (Task.fresh num_input blocks) [] = true)
    (hadd : ((calls.filter Call.isAdd).length : Int) ≤ num_input) :
    (runCalls ops env calls (Task.fresh num_input blocks)).num_ready
      ≤ (runCalls ops env calls (Task.fresh num_input blocks)).num_input := by
  obtain ⟨counted, ⟨hnd, hsub, _, hnum, hblocks⟩, _⟩ :=
    countsOnce_run ops env calls (Task.fresh num_input blocks) [] (countInv_fresh _ _) honce
  have hle : counted.length
      ≤ ((runCalls ops env calls (Task.fresh num_input blocks)).input_table.map
          Prod.fst).length :=
    (List.subperm_of_subset hnd (fun p hp => hsub p hp)).length_le
  have hlen := runCalls_input_blocks_length ops env calls (Task.fresh num_input blocks)
  rw [hblocks] at hlen
  simp only [List.length_map, Task.fresh, List.length_nil, zero_add] at hlen hle
  rw [runCalls_num_input, hnum]
  show (counted.length : Int) ≤ num_input
  omega

/-- C1 (amended), at a task with two inputs: the hydrated block 1 is attached, the
block 2 without data is attached and then hydrated by a scalar broadcast message. -/
theorem num_ready_le_num_input_witness :
    (runCalls exOps noFiles
        [.addInputBlock 0 1, .addInputBlock (-1) 2,
         .onDataReady { bareMsg (-1) with has_bval := true, bval := 42 }, .getOutputBlock]
        (Task.fresh 2 exBlocks)).num_ready
      ≤ (runCalls exOps noFiles
        [.addInputBlock 0 1, .addInputBlock (-1) 2,
         .onDataReady { bareMsg (-1) with has_bval := true, bval := 42 }, .getOutputBlock]
        (Task.fresh 2 exBlocks)).num_input :=
  num_ready_le_num_input exOps noFiles
    [.addInputBlock 0 1, .addInputBlock (-1) 2,
     .onDataReady { bareMsg (-1) with has_bval := true, bval := 42 }, .getOutputBlock]
    2 exBlocks (by decide) (by decide)

end acc_runtime

namespace acc_runtime

/-! ## C11: `getInputBlock` -/

theorem mapFind_some_mem (tbl : List (Int × Nat)) (k : Int) (v : Nat)
    (h : mapFind tbl k = some v) : (k, v) ∈ tbl := by
  induction tbl with
  | nil => simp [mapFind] at h
  | cons kv rest ih =>
    obtain ⟨k', v'⟩ := kv
    by_cases hk : k = k'
    · simp only [mapFind, hk, if_true, Option.some.injEq] at h
      subst h
      rw [hk]
      exact List.mem_cons_self _ _
    · simp only [mapFind, hk, if_false] at h
      exact List.mem_cons_of_mem _ (ih h)

/-- C11: for every task and partition id, `getInputBlock` returns a value (it has
no failing path) and leaves the task, with its table, input blocks, counter and
status, as it was; the value is the block `input_table` maps the id to, and it is
`NULL_DATA_BLOCK` exactly when the id is not a key of `input_table`. -/
theorem getInputBlock_lookup {B : Type} (block_id : Int) (t : Task B) :
    (getInputBlock block_id t).2 = t
      ∧ (getInputBlock block_id t).1 = mapFind t.input_table block_id
      ∧ ((getInputBlock block_id t).1 = none ↔ block_id ∉ t.input_table.map Prod.fst)
      ∧ ∀ b, (getInputBlock block_id t).1 = some b → (block_id, b) ∈ t.input_table := by
  have hval : (getInputBlock block_id t).1 = mapFind t.input_table block_id := by
    unfold getInputBlock
    cases mapFind t.input_table block_id <;> rfl
  have htask : (getInputBlock block_id t).2 = t := by
    unfold getInputBlock
    cases mapFind t.input_table block_id <;> rfl
  refine ⟨htask, hval, ?_, ?_⟩
  · rw [hval]
    exact mapFind_eq_none_iff _ _
  · intro b hb
    rw [hval] at hb
    exact mapFind_some_mem _ _ _ hb

/-! ## C12: `getOutputBlock` on an empty stack -/

/-- C12: when `output_blocks` is empty, `getOutputBlock` returns `false`, leaves
the caller's block reference as it was and leaves the task unchanged; in
particular the status is not set to `COMMITTED`. -/
theorem getOutputBlock_empty {B : Type} (block : Option Nat) (t : Task B)
    (h : t.output_blocks = []) :
    getOutputBlock block t = (false, block, t) := by
  simp [getOutputBlock, h]

/-- C12, at a running task without output blocks, called with a reference that
holds block 5. -/
theorem getOutputBlock_empty_witness :
    (getOutputBlock (some 5) ({ Task.fresh 1 exBlocks with status := .RUNNING })).1 = false
      ∧ (getOutputBlock (some 5)
          ({ Task.fresh 1 exBlocks with status := .RUNNING })).2.1 = some 5
      ∧ (getOutputBlock (some 5)
          ({ Task.fresh 1 exBlocks with status := .RUNNING })).2.2.status = .RUNNING := by
  have h := getOutputBlock_empty (some 5)
    ({ Task.fresh 1 exBlocks with status := .RUNNING }) rfl
  rw [h]
  decide

/-! ## C14: broadcast scalar -/

/-- C14: for a message with `partition_id < 0` registered to a block that is not
hydrated, with `bval` present and `length` absent, `onDataReady` sets the length
of the block to 1 and its item count to 1, allocates 8 bytes, writes the 64-bit
value `bval` with length 8 at offset 0, increments `num_ready` by one, sets the
status to `READY` when the new `num_ready` equals `num_input`, and returns the
block. -/
theorem onDataReady_broadcast_scalar {B : Type} (ops : DataBlockOps B) (env : Env)
    (m : DataMsg) (t : Task B) (block : Nat) (hneg : m.partition_id < 0)
    (hfind : mapFind t.input_table m.partition_id = some block)
    (hnot : ops.isReady (t.blocks block) = false)
    (hlen : m.has_length = false) (hbval : m.has_bval = true) :
    onDataReady ops env m t
      = (.ok block,
         { t with
           blocks := Function.update t.blocks block
             (ops.writeData (.int64 m.bval) 8 0 (ops.alloc 8 (ops.setNumItems 1
               (ops.setLength 1 (t.blocks block))))),
           num_ready := t.num_ready + 1,
           status := if t.num_ready + 1 = t.num_input then .READY else t.status }) := by
  have hh : hydrate ops env m (t.blocks block)
      = .ok (ops.writeData (.int64 m.bval) 8 0 (ops.alloc 8 (ops.setNumItems 1
          (ops.setLength 1 (t.blocks block))))) := by
    simp [hydrate, hneg, hlen, hbval]
  simp only [onDataReady, hfind, hnot, hh, Bool.not_false, if_true]
  split_ifs <;> rfl

/-- C14, at a task with two inputs whose partition 0 is counted and whose
partition -1 holds block 2 without data: the scalar 42 yields an 8-byte block that
contains 42, and the status becomes `READY`. -/
theorem onDataReady_broadcast_scalar_witness :
    (onDataReady exOps noFiles { bareMsg (-1) with has_bval := true, bval := 42 }
        (addInputBlock exOps (-1) 2 (addInputBlock exOps 0 1 (Task.fresh 2 exBlocks)))).1
        = .ok 2
      ∧ (onDataReady exOps noFiles { bareMsg (-1) with has_bval := true, bval := 42 }
          (addInputBlock exOps (-1) 2
            (addInputBlock exOps 0 1 (Task.fresh 2 exBlocks)))).2.blocks 2
        = { length := 1, num_items := 1, size := 8, written := [(0, 8, .int64 42)],
            ready := true }
      ∧ (onDataReady exOps noFiles { bareMsg (-1) with has_bval := true, bval := 42 }
          (addInputBlock exOps (-1) 2
            (addInputBlock exOps 0 1 (Task.fresh 2 exBlocks)))).2.num_ready = 2
      ∧ (onDataReady exOps noFiles { bareMsg (-1) with has_bval := true, bval := 42 }
          (addInputBlock exOps (-1) 2
            (addInputBlock exOps 0 1 (Task.fresh 2 exBlocks)))).2.status = .READY := by
  have h := onDataReady_broadcast_scalar exOps noFiles
    { bareMsg (-1) with has_bval := true, bval := 42 }
    (addInputBlock exOps (-1) 2 (addInputBlock exOps 0 1 (Task.fresh 2 exBlocks))) 2
    (by decide) (by decide) (by decide) (by decide) (by decide)
  rw [h]
  decide

/-! ## C16: table entries are input blocks -/

theorem tableInBlocks_addInputBlock {B : Type} (ops : DataBlockOps B) (p : Int) (b : Nat)
    (t : Task B) (h : TableInBlocks t) : TableInBlocks (addInputBlock ops p b t) := by
  intro kv hkv
  rw [addInputBlock_input_table] at hkv
  rw [addInputBlock_input_blocks]
  unfold mapInsert at hkv
  cases hf : mapFind t.input_table p with
  | some v =>
    rw [hf] at hkv
    exact List.mem_append_left _ (h kv hkv)
  | none =>
    rw [hf] at hkv
    rcases List.mem_append.mp hkv with hold | hnew
    · exact List.mem_append_left _ (h kv hold)
    · rw [List.mem_singleton] at hnew
      subst hnew
      exact List.mem_append_right _ (List.mem_singleton.mpr rfl)

/-- C16: every block that is a value of `input_table` also occurs in
`input_blocks`: this holds for a freshly constructed task, and when it holds for a
task it holds after `addInputBlock` (also with a partition id that is already
registered), after `getInputBlock`, after `onDataReady` (returning or throwing) and
after `getOutputBlock`. -/
theorem table_values_in_input_blocks {B : Type} (ops : DataBlockOps B) (env : Env)
    (t : Task B) (h : TableInBlocks t) (num_input : Int) (blocks : Nat → B)
    (p : Int) (b : Nat) (block_id : Int) (m : DataMsg) (ref : Option Nat) :
    TableInBlocks (Task.fresh num_input blocks)
      ∧ TableInBlocks (addInputBlock ops p b t)
      ∧ TableInBlocks (getInputBlock block_id t).2
      ∧ TableInBlocks (onDataReady ops env m t).2
      ∧ TableInBlocks (getOutputBlock ref t).2.2 := by
  refine ⟨?_, tableInBlocks_addInputBlock ops p b t h, ?_, ?_, ?_⟩
  · intro kv hkv
    simp [Task.fresh] at hkv
  · have ht : (getInputBlock block_id t).2 = t := by
      unfold getInputBlock
      cases mapFind t.input_table block_id <;> rfl
    rw [ht]
    exact h
  · obtain ⟨_, hib, hit⟩ := onDataReady_frame ops env m t
    intro kv hkv
    rw [hit] at hkv
    rw [hib]
    exact h kv hkv
  · obtain ⟨_, _, hib, hit, _⟩ := getOutputBlock_frame ref t
    intro kv hkv
    rw [hit] at hkv
    rw [hib]
    exact h kv hkv

/-- C16, at a task that holds partition 0 with block 2 and receives a second block
under the same partition id. -/
theorem table_values_in_input_blocks_witness :
    TableInBlocks (addInputBlock exOps 0 2 (Task.fresh 2 exBlocks))
      ∧ TableInBlocks (addInputBlock exOps 0 3 (addInputBlock exOps 0 2 (Task.fresh 2 exBlocks)))
      ∧ TableInBlocks (onDataReady exOps noFiles (bareMsg 7)
          (addInputBlock exOps 0 2 (Task.fresh 2 exBlocks))).2 :=
  have h0 : TableInBlocks (addInputBlock exOps 0 2 (Task.fresh 2 exBlocks)) := by
    unfold TableInBlocks
    decide
  have h := table_values_in_input_blocks exOps noFiles
    (addInputBlock exOps 0 2 (Task.fresh 2 exBlocks)) h0 2 exBlocks 0 3 0 (bareMsg 7) none
  ⟨h0, h.2.1, h.2.2.2.1⟩

/-! ## C15: one branch per message -/

theorem hydrate_eq_runBranch {B : Type} (ops : DataBlockOps B) (env : Env) (m : DataMsg)
    (blk : B) : hydrate ops env m blk = runBranch ops env m blk (branchTaken m) := by
  by_cases hneg : m.partition_id < 0
  · by_cases hlen : m.has_length = true
    · have hb : branchTaken m = .broadcastArray := by
        unfold branchTaken
        rw [if_pos hneg, if_pos hlen]
      rw [hb]
      unfold hydrate runBranch
      rw [if_pos hneg, if_pos hlen]
    · by_cases hv : m.has_bval = true
      · have hb : branchTaken m = .broadcastScalar := by
          unfold branchTaken
          rw [if_pos hneg, if_neg hlen, if_pos hv]
        rw [hb]
        unfold hydrate runBranch
        rw [if_pos hneg, if_neg hlen, if_pos hv]
      · have hb : branchTaken m = .invalidBroadcast := by
          unfold branchTaken
          rw [if_pos hneg, if_neg hlen, if_neg hv]
        rw [hb]
        unfold hydrate runBranch
        rw [if_pos hneg, if_neg hlen, if_neg hv]
  · by_cases hl : m.length = -1
    · have hb : branchTaken m = .streamedFromFile := by
        unfold branchTaken
        rw [if_neg hneg]
        dsimp only
        rw [if_pos hl]
      rw [hb]
      unfold hydrate runBranch
      rw [if_neg hneg]
      dsimp only
      rw [if_pos hl]
    · have hb : branchTaken m = .memoryMapped := by
        unfold branchTaken
        rw [if_neg hneg]
        dsimp only
        rw [if_neg hl]
      rw [hb]
      unfold hydrate runBranch
      rw [if_neg hneg]
      dsimp only
      rw [if_neg hl]

/-- C15, as stated, fails: for a broadcast message that carries both `length` and
`bval`, the conditions the spec gives for the array branch and for the scalar
branch both hold, so no branch is the unique one whose condition holds; the code
takes the array branch. -/
theorem spec_conditions_overlap :
    specCondition .broadcastArray
        { bareMsg (-1) with has_length := true, length := 4, has_bval := true, bval := 42 }
        = true
      ∧ specCondition .broadcastScalar
        { bareMsg (-1) with has_length := true, length := 4, has_bval := true, bval := 42 }
        = true
      ∧ branchTaken
        { bareMsg (-1) with has_length := true, length := 4, has_bval := true, bval := 42 }
        = .broadcastArray
      ∧ ¬ (∀ br : Branch,
          specCondition br
            { bareMsg (-1) with has_length := true, length := 4, has_bval := true, bval := 42 }
            = true
          ↔ br = branchTaken
            { bareMsg (-1) with has_length := true, length := 4, has_bval := true,
                                bval := 42 }) := by
  refine ⟨by decide, by decide, by decide, ?_⟩
  intro h
  exact absurd ((h .broadcastScalar).mp (by decide)) (by decide)

/-- C15 (amended): for every message whose partition id is registered to a block
that is not hydrated, `onDataReady` runs the body of exactly one of the five
branches, the result of the call is the result of that body, and the branch
taken is the only one whose condition holds for the message, where the conditions
are: array, id < 0 and `length` present; scalar, id < 0, `length` absent and `bval`
present; invalid, id < 0 and neither; streamed, id >= 0 and `length == -1`;
memory-mapped, id >= 0 and `length != -1`. -/
theorem onDataReady_takes_one_branch {B : Type} (ops : DataBlockOps B) (env : Env)
    (m : DataMsg) (t : Task B) (block : Nat)
    (hfind : mapFind t.input_table m.partition_id = some block)
    (hnot : ops.isReady (t.blocks block) = false) :
    (onDataReady ops env m t
        = match runBranch ops env m (t.blocks block) (branchTaken m) with
          | .error e => (.error e, t)
          | .ok blk =>
            (.ok block,
             { t with blocks := Function.update t.blocks block blk,
                      num_ready := t.num_ready + 1,
                      status := if t.num_ready + 1 = t.num_input then .READY
                                else t.status }))
      ∧ ∀ br : Branch, branchCondition br m = true ↔ br = branchTaken m := by
  constructor
  · rw [← hydrate_eq_runBranch]
    simp only [onDataReady, hfind, hnot, Bool.not_false, if_true]
    cases hydrate ops env m (t.blocks block) with
    | error e => rfl
    | ok blk =>
      dsimp only
      split_ifs <;> rfl
  · intro br
    unfold branchTaken
    by_cases hneg : m.partition_id < 0
    · have hge : ¬ 0 ≤ m.partition_id := by omega
      cases hlen : m.has_length <;> cases hb : m.has_bval <;> cases br <;>
        simp [branchCondition, specCondition, hneg, hge, hlen, hb]
    · have hge : 0 ≤ m.partition_id := by omega
      by_cases hl : m.length = -1 <;> cases br <;>
        simp [branchCondition, specCondition, hneg, hge, hl]

/-- C15 (amended), at a broadcast message that carries both `length` and `bval`
for a block without data: only the condition of the array branch holds. -/
theorem onDataReady_takes_one_branch_witness :
    branchTaken
        { bareMsg (-1) with has_length := true, length := 4, has_bval := true, bval := 42 }
        = .broadcastArray
      ∧ ∀ br : Branch,
          branchCondition br
            { bareMsg (-1) with has_length := true, length := 4, has_bval := true, bval := 42 }
            = true
          ↔ br = branchTaken
            { bareMsg (-1) with has_length := true, length := 4, has_bval := true,
                                bval := 42 } :=
  ⟨by decide,
   (onDataReady_takes_one_branch exOps noFiles
      { bareMsg (-1) with has_length := true, length := 4, has_bval := true, bval := 42 }
      (addInputBlock exOps (-1) 2 (Task.fresh 1 exBlocks)) 2 (by decide) (by decide)).2⟩

/-! ## C19: a streamed file without data -/

theorem readLines_zero_bytes (env : Env) :
    ∀ (lines : List String) (st : LineLoop),
      (∀ line ∈ lines, ∀ ne nb, ∃ data ne', env.readLine line ne nb = .ok (data, ne', 0)) →
      ∃ st', readLines env lines st = .ok st' ∧ st'.total_bytes = st.total_bytes
        ∧ st'.data_buf = st.data_buf := by
  intro lines
  induction lines with
  | nil => intro st _; exact ⟨st, rfl, rfl, rfl⟩
  | cons line rest ih =>
    intro st h
    obtain ⟨data, ne', hline⟩ := h line (List.mem_cons_self _ _) st.num_elements st.num_bytes
    obtain ⟨st', hrun, htot, hbuf⟩ :=
      ih { st with num_elements := ne', num_bytes := 0 }
        (fun l hl => h l (List.mem_cons_of_mem _ hl))
    refine ⟨st', ?_, htot, hbuf⟩
    simp only [readLines, hline]
    simpa using hrun

/-- A streamed-from-file message with a negative `size` makes `new char[size]`
throw before anything is read: the call fails and the task is unchanged. -/
theorem onDataReady_streamed_negative_size {B : Type} (ops : DataBlockOps B) (env : Env)
    (m : DataMsg) (t : Task B) (block : Nat)
    (hpid : 0 ≤ m.partition_id) (hlen : m.length = -1)
    (hfind : mapFind t.input_table m.partition_id = some block)
    (hnot : ops.isReady (t.blocks block) = false) (hsize : m.size < 0) :
    onDataReady ops env m t = (.error .badArrayNewLength, t) := by
  have hneg : ¬ m.partition_id < 0 := by omega
  have hread : readBuffer env m.path m.offset m.size = .error .badArrayNewLength := by
    unfold readBuffer
    rw [if_pos hsize]
  have hh : hydrate ops env m (t.blocks block) = .error .badArrayNewLength := by
    simp only [hydrate, hneg, if_false, hlen, if_true, hread]
  simp only [onDataReady, hfind, hnot, hh, Bool.not_false, if_true]

/-- C19: in the streamed-from-file branch (`partition_id >= 0`, `length == -1`,
target block registered and not hydrated), when the content is read and has no
line or every line decodes to zero bytes, the block store is left as it was (no
`alloc`, `writeData`, `setNumItems` or `setLength`), so the block is still not
hydrated; the call returns the block, increments `num_ready` by one and sets the
status to `READY` when the new `num_ready` equals `num_input`. -/
theorem onDataReady_streamed_zero_bytes {B : Type} (ops : DataBlockOps B) (env : Env)
    (m : DataMsg) (t : Task B) (block : Nat) (content : String)
    (hpid : 0 ≤ m.partition_id) (hlen : m.length = -1)
    (hfind : mapFind t.input_table m.partition_id = some block)
    (hnot : ops.isReady (t.blocks block) = false)
    (hread : readBuffer env m.path m.offset m.size = .ok content)
    (hzero : ∀ line ∈ getlines content, ∀ ne nb,
      ∃ data ne', env.readLine line ne nb = .ok (data, ne', 0)) :
    onDataReady ops env m t
        = (.ok block,
           { t with num_ready := t.num_ready + 1,
                    status := if t.num_ready + 1 = t.num_input then .READY else t.status })
      ∧ ops.isReady ((onDataReady ops env m t).2.blocks block) = false := by
  obtain ⟨st, hrun, htot, _⟩ := readLines_zero_bytes env (getlines content)
    { data_buf := [], total_bytes := 0, num_bytes := 0, num_elements := 0 } hzero
  have hneg : ¬ m.partition_id < 0 := by omega
  have htot' : ¬ st.total_bytes > 0 := by rw [htot]; simp
  have hh : hydrate ops env m (t.blocks block) = .ok (t.blocks block) := by
    simp only [hydrate, hneg, if_false, hlen, if_true, hread, hrun, htot']
  have hres : onDataReady ops env m t
      = (.ok block,
         { t with num_ready := t.num_ready + 1,
                  status := if t.num_ready + 1 = t.num_input then .READY else t.status }) := by
    simp only [onDataReady, hfind, hnot, hh, Bool.not_false, if_true,
      Function.update_eq_self]
    split_ifs <;> rfl
  refine ⟨hres, ?_⟩
  rw [hres]
  exact hnot

/-- C19, at a task with one input whose partition 0 holds block 2 without data and
is streamed from a file of two blank lines: the call returns block 2, which is as
before, and the status becomes `READY`. -/
theorem onDataReady_streamed_zero_bytes_witness :
    (onDataReady exOps exFiles (fileMsg 0 "/data/blank" 2)
        (addInputBlock exOps 0 2 (Task.fresh 1 exBlocks))).1 = .ok 2
      ∧ (onDataReady exOps exFiles (fileMsg 0 "/data/blank" 2)
          (addInputBlock exOps 0 2 (Task.fresh 1 exBlocks))).2.status = .READY
      ∧ exOps.isReady ((onDataReady exOps exFiles (fileMsg 0 "/data/blank" 2)
          (addInputBlock exOps 0 2 (Task.fresh 1 exBlocks))).2.blocks 2) = false := by
  have hz : ∀ line ∈ getlines "\n\n", (exDecode line).2.2 = 0 := by decide
  have h := onDataReady_streamed_zero_bytes exOps exFiles (fileMsg 0 "/data/blank" 2)
    (addInputBlock exOps 0 2 (Task.fresh 1 exBlocks)) 2 "\n\n"
    (by decide) (by decide) (by decide) (by decide) (by decide)
    (fun line hl _ _ => ⟨(exDecode line).1, (exDecode line).2.1,
      congrArg (fun z => Except.ok ((exDecode line).1, (exDecode line).2.1, z)) (hz line hl)⟩)
  refine ⟨?_, ?_, h.2⟩
  · rw [h.1]
  · rw [h.1]
    decide

/-! ## C13: a streamed file -/

/-- The copy loop writes every buffered line right after the lines before it: the
last line goes to the start offset plus the byte counts of the lines before it. -/
theorem writeLines_concat {B : Type} (ops : DataBlockOps B) (bytes : Nat) (data : List Nat) :
    ∀ (bufs : List (Nat × List Nat)) (offset : Nat) (blk : B),
      writeLines ops (bufs ++ [(bytes, data)]) offset blk
        = ops.writeData (.chars data) bytes (offset + (bufs.map Prod.fst).sum)
            (writeLines ops bufs offset blk) := by
  intro bufs
  induction bufs with
  | nil => intro offset blk; simp [writeLines]
  | cons buf rest ih =>
    intro offset blk
    obtain ⟨n, d⟩ := buf
    show writeLines ops (rest ++ [(bytes, data)]) (offset + n)
        (ops.writeData (.chars d) n offset blk) = _
    rw [ih]
    simp only [List.map_cons, List.sum_cons, writeLines, Nat.add_assoc]

theorem readLines_total (env : Env) :
    ∀ (lines : List String) (st st' : LineLoop), readLines env lines st = .ok st' →
      st.total_bytes = (st.data_buf.map Prod.fst).sum → (∀ buf ∈ st.data_buf, 0 < buf.1) →
      st'.total_bytes = (st'.data_buf.map Prod.fst).sum ∧ ∀ buf ∈ st'.data_buf, 0 < buf.1 := by
  intro lines
  induction lines with
  | nil =>
    intro st st' hrun htot hpos
    simp only [readLines] at hrun
    cases hrun
    exact ⟨htot, hpos⟩
  | cons line rest ih =>
    intro st st' hrun htot hpos
    simp only [readLines] at hrun
    cases hline : env.readLine line st.num_elements st.num_bytes with
    | error e => rw [hline] at hrun; cases hrun
    | ok r =>
      obtain ⟨data, ne, nb⟩ := r
      rw [hline] at hrun
      dsimp only at hrun
      by_cases hnb : nb > 0
      · rw [if_pos hnb] at hrun
        refine ih _ st' hrun ?_ ?_
        · simp [htot]
        · intro buf hbuf
          rcases List.mem_append.mp hbuf with h | h
          · exact hpos buf h
          · rw [List.mem_singleton] at h
            subst h
            exact hnb
      · rw [if_neg hnb] at hrun
        exact ih _ st' hrun htot hpos

/-- With a `DataBlock` that is ready after each populating sequence, and a message
whose streamed content holds data, a hydration that returns leaves the block
hydrated. -/
theorem hydrate_ready {B : Type} (ops : DataBlockOps B) (env : Env) (m : DataMsg)
    (blk blk' : B) (hops : ReadyAfterHydration ops) (hdata : msgStreamsData env m = true)
    (h : hydrate ops env m blk = .ok blk') : ops.isReady blk' = true := by
  rw [hydrate_eq_runBranch] at h
  unfold msgStreamsData at hdata
  cases hb : branchTaken m with
  | broadcastArray =>
    rw [hb] at h
    simp only [runBranch, Except.ok.injEq] at h
    subst h
    exact hops.mapped _ _ _ _ _
  | broadcastScalar =>
    rw [hb] at h
    simp only [runBranch, Except.ok.injEq] at h
    subst h
    exact hops.scalar _ _
  | invalidBroadcast =>
    rw [hb] at h
    simp only [runBranch] at h
    cases h
  | memoryMapped =>
    rw [hb] at h
    simp only [runBranch, Except.ok.injEq] at h
    subst h
    exact hops.mapped _ _ _ _ _
  | streamedFromFile =>
    rw [hb] at h hdata
    simp only [runBranch] at h
    dsimp only at hdata
    cases hread : readBuffer env m.path m.offset m.size with
    | error e => rw [hread] at h; cases h
    | ok line_buffer =>
      rw [hread] at h hdata
      dsimp only at h hdata
      cases hrun : readLines env (getlines line_buffer)
          { data_buf := [], total_bytes := 0, num_bytes := 0, num_elements := 0 } with
      | error e => rw [hrun] at h; cases h
      | ok st =>
        rw [hrun] at h hdata
        dsimp only at h hdata
        have hpos : st.total_bytes > 0 := of_decide_eq_true hdata
        rw [if_pos hpos] at h
        cases h
        obtain ⟨htot, hall⟩ := readLines_total env _ _ st hrun rfl
          (fun buf hbuf => by simp at hbuf)
        have hne : st.data_buf ≠ [] := by
          intro hnil
          rw [hnil] at htot
          simp at htot
          omega
        rw [htot]
        exact hops.streamed st.data_buf st.num_elements blk hne hall

theorem hydratesOnReturn_of_streamsData {B : Type} (ops : DataBlockOps B) (env : Env)
    (hops : ReadyAfterHydration ops) :
    ∀ (calls : List Call) (t : Task B), (∀ c ∈ calls, c.streamsData env = true) →
      hydratesOnReturn ops env calls t = true := by
  intro calls
  induction calls with
  | nil => intro t _; rfl
  | cons c cs ih =>
    intro t hdata
    have hrest := fun t' => ih t' (fun c' hc' => hdata c' (List.mem_cons_of_mem c hc'))
    cases c with
    | addInputBlock p b => simpa [hydratesOnReturn] using hrest _
    | getOutputBlock => simpa [hydratesOnReturn] using hrest _
    | onDataReady m =>
      have hm : msgStreamsData env m = true := hdata _ (List.mem_cons_self _ _)
      simp only [hydratesOnReturn, Bool.and_eq_true]
      refine ⟨?_, hrest _⟩
      rcases onDataReady_cases ops env m t with ⟨_, hr⟩ | ⟨_, _, _, _, _, hr⟩
        | ⟨block, blocks1, _, hblocks, hr⟩
      · rw [hr]
      · rw [hr]
      · rw [hr]
        show ops.isReady (blocks1 block) = true
        rcases hblocks with ⟨hready, rfl⟩ | ⟨_, blk, hh, rfl⟩
        · exact hready
        · rw [Function.update_same]
          exact hydrate_ready ops env m _ blk hops hm hh

/-- The example block is ready after each populating sequence. -/
theorem exOps_readyAfterHydration : ReadyAfterHydration exOps := by
  refine ⟨fun _ _ _ _ _ => rfl, fun _ _ => rfl, ?_⟩
  intro bufs ne b hne _
  obtain ⟨init, last, rfl⟩ : ∃ init last, bufs = init ++ [last] :=
    ⟨bufs.dropLast, bufs.getLast hne, (List.dropLast_append_getLast hne).symm⟩
  obtain ⟨n, d⟩ := last
  rw [writeLines_concat]
  rfl

/-- C2, as stated, fails. With `num_input = 2`, the hydrated block 1 is attached
and counted, the block 2 without data is attached, and `onDataReady` for the first
partition counts block 1 again: the status is `READY` while block 2, which is in
`input_blocks`, is not hydrated. And with `num_input = 1`, the block 2 without data
is attached and its partition is streamed from a file of two blank lines: every
partition is attached once and counted once, the status is `READY`, and block 2 is
not hydrated. -/
theorem ready_with_unhydrated_input :
    ((runCalls exOps noFiles
        [.addInputBlock 0 1, .addInputBlock 1 2, .onDataReady (bareMsg 0)]
        (Task.fresh 2 exBlocks)).status = .READY
      ∧ 2 ∈ (runCalls exOps noFiles
        [.addInputBlock 0 1, .addInputBlock 1 2, .onDataReady (bareMsg 0)]
        (Task.fresh 2 exBlocks)).input_blocks
      ∧ exOps.isReady ((runCalls exOps noFiles
        [.addInputBlock 0 1, .addInputBlock 1 2, .onDataReady (bareMsg 0)]
        (Task.fresh 2 exBlocks)).blocks 2) = false)
    ∧ (countsOnce exOps exFiles
        [.addInputBlock 0 2, .onDataReady (fileMsg 0 "/data/blank" 2)]
        (Task.fresh 1 exBlocks) [] = true
      ∧ (runCalls exOps exFiles
        [.addInputBlock 0 2, .onDataReady (fileMsg 0 "/data/blank" 2)]
        (Task.fresh 1 exBlocks)).status = .READY
      ∧ 2 ∈ (runCalls exOps exFiles
        [.addInputBlock 0 2, .onDataReady (fileMsg 0 "/data/blank" 2)]
        (Task.fresh 1 exBlocks)).input_blocks
      ∧ exOps.isReady ((runCalls exOps exFiles
        [.addInputBlock 0 2, .onDataReady (fileMsg 0 "/data/blank" 2)]
        (Task.fresh 1 exBlocks)).blocks 2) = false) := by
  decide

/-- C2 (amended): take a `DataBlock` that is ready after each populating sequence
of `onDataReady`. For every task state reachable from a freshly constructed task by
a finite sequence of `addInputBlock` and `onDataReady` calls in which no partition
id is attached twice, no partition id is counted twice, at most `num_input` blocks
are attached and no message streams a content of zero bytes: if the status is
`READY` then the task holds exactly `num_input` input blocks and every block in
`input_blocks` is hydrated. -/
theorem ready_implies_inputs_hydrated {B : Type} (ops : DataBlockOps B) (env : Env)
    (calls : List Call) (num_input : Int) (blocks : Nat → B)
    (hops : ReadyAfterHydration ops)
    (hin : ∀ c ∈ calls, c.isInput = true)
    (honce : countsOnce ops env calls (Task.fresh num_input blocks) [] = true)
    (hdata : ∀ c ∈ calls, c.streamsData env = true)
    (hadd : ((calls.filter Call.isAdd).length : Int) ≤ num_input)
    (hready : (runCalls ops env calls (Task.fresh num_input blocks)).status = .READY) :
    ((runCalls ops env calls (Task.fresh num_input blocks)).input_blocks.length : Int)
        = (runCalls ops env calls (Task.fresh num_input blocks)).num_input
      ∧ ∀ b ∈ (runCalls ops env calls (Task.fresh num_input blocks)).input_blocks,
          ops.isReady ((runCalls ops env calls (Task.fresh num_input blocks)).blocks b)
            = true := by
  have hret := hydratesOnReturn_of_streamsData ops env hops calls
    (Task.fresh num_input blocks) hdata
  obtain ⟨counted, ⟨hnd, hsub, hkeys, hnum, hblocks⟩, hhyd⟩ :=
    countsOnce_run ops env calls (Task.fresh num_input blocks) [] (countInv_fresh _ _) honce
  have hhyd' := hhyd (fun p hp => by simp at hp) hret
  have hreached := ((ready_invariant_run ops env calls (Task.fresh num_input blocks) hin
    ⟨Or.inl rfl, le_refl _, by simp [Task.fresh]; omega⟩).2.2.2.mp hready).2
  have hsp := List.subperm_of_subset hnd (fun p hp => hsub p hp)
  have hle := hsp.length_le
  have hlen := runCalls_input_blocks_length ops env calls (Task.fresh num_input blocks)
  have hni := runCalls_num_input ops env calls (Task.fresh num_input blocks)
  have hlen' : (runCalls ops env calls (Task.fresh num_input blocks)).input_blocks.length
      = ((runCalls ops env calls (Task.fresh num_input blocks)).input_table.map
          Prod.fst).length := by
    rw [hblocks]
    simp
  have hfresh : (Task.fresh num_input blocks).input_blocks.length = 0 := rfl
  have hfresh' : (Task.fresh num_input blocks).num_input = num_input := rfl
  have hperm := hsp.perm_of_length_le (by omega)
  refine ⟨by omega, ?_⟩
  intro b hb
  rw [hblocks] at hb
  obtain ⟨⟨p, b'⟩, hmem, rfl⟩ := List.mem_map.mp hb
  have hp : p ∈ counted := hperm.symm.subset (List.mem_map.mpr ⟨(p, b'), hmem, rfl⟩)
  exact hhyd' p hp b' (mapFind_of_mem_nodup _ _ _ hkeys hmem)

/-- C2 (amended), at a task with two inputs: the blocks 2 and 4 are attached
without data, partition 0 is streamed from the two-line file `"1 2\n3 4\n"` and
partition -1 is hydrated by the scalar 42; the status is `READY` and both input
blocks are hydrated. -/
theorem ready_implies_inputs_hydrated_witness :
    (runCalls exOps exFiles
        [.addInputBlock 0 2, .addInputBlock (-1) 4,
         .onDataReady (fileMsg 0 "/data/part0" 8),
         .onDataReady { bareMsg (-1) with has_bval := true, bval := 42 }]
        (Task.fresh 2 exBlocks)).status = .READY
      ∧ ((runCalls exOps exFiles
          [.addInputBlock 0 2, .addInputBlock (-1) 4,
           .onDataReady (fileMsg 0 "/data/part0" 8),
           .onDataReady { bareMsg (-1) with has_bval := true, bval := 42 }]
          (Task.fresh 2 exBlocks)).input_blocks.length : Int)
        = (runCalls exOps exFiles
          [.addInputBlock 0 2, .addInputBlock (-1) 4,
           .onDataReady (fileMsg 0 "/data/part0" 8),
           .onDataReady { bareMsg (-1) with has_bval := true, bval := 42 }]
          (Task.fresh 2 exBlocks)).num_input
      ∧ ∀ b ∈ (runCalls exOps exFiles
          [.addInputBlock 0 2, .addInputBlock (-1) 4,
           .onDataReady (fileMsg 0 "/data/part0" 8),
           .onDataReady { bareMsg (-1) with has_bval := true, bval := 42 }]
          (Task.fresh 2 exBlocks)).input_blocks,
          exOps.isReady ((runCalls exOps exFiles
            [.addInputBlock 0 2, .addInputBlock (-1) 4,
             .onDataReady (fileMsg 0 "/data/part0" 8),
             .onDataReady { bareMsg (-1) with has_bval := true, bval := 42 }]
            (Task.fresh 2 exBlocks)).blocks b) = true :=
  ⟨by decide,
   ready_implies_inputs_hydrated exOps exFiles
    [.addInputBlock 0 2, .addInputBlock (-1) 4,
     .onDataReady (fileMsg 0 "/data/part0" 8),
     .onDataReady { bareMsg (-1) with has_bval := true, bval := 42 }]
    2 exBlocks exOps_readyAfterHydration (by decide) (by decide) (by decide) (by decide)
    (by decide)⟩

end acc_runtime

namespace blaze

/-! ## C18: `exeQueueLength` and the execution queue -/

/-- C18: `exeQueueLength` equals the length of `execution_queue` for a freshly
constructed `TaskManager` (`exeQueueLength = 0`, empty execution queue,
`nextTaskId = 0`), and when it does for a manager it does after `enqueue`, after the
promotion step of `schedule` (whatever the policy decides) and after `dequeue`. -/
theorem exeQueueLength_eq_queue_length (m : TaskManager) (h : m.LengthInv)
    (app_id : String) (task : Nat) (candidate : Option String) (ref : Option Nat) :
    (TaskManager.construct.exeQueueLength = 0
        ∧ TaskManager.construct.execution_queue = []
        ∧ TaskManager.construct.nextTaskId = 0
        ∧ TaskManager.construct.LengthInv)
      ∧ (m.enqueue app_id task).LengthInv
      ∧ (m.schedule candidate).LengthInv
      ∧ (m.dequeue ref).2.2.LengthInv := by
  unfold TaskManager.LengthInv at h
  refine ⟨⟨rfl, rfl, rfl, rfl⟩, h, ?_, ?_⟩
  · unfold TaskManager.schedule TaskManager.LengthInv
    cases candidate with
    | none => exact h
    | some a =>
      dsimp only
      cases appHead m.app_queues a with
      | none => exact h
      | some tk =>
        dsimp only
        rw [h]
        simp
  · unfold TaskManager.dequeue TaskManager.LengthInv
    cases hq : m.execution_queue with
    | nil =>
      dsimp only
      rw [h, hq]
    | cons head rest =>
      dsimp only
      rw [h, hq]
      simp

/-- C18, at a manager with two queued tasks of one application, one of which has
been promoted: a further promotion and a dequeue keep the counter equal to the
queue length. -/
theorem exeQueueLength_eq_queue_length_witness :
    (((TaskManager.construct.enqueue "app" 1).enqueue "app" 2).schedule
        (some "app")).exeQueueLength = 1
      ∧ ((((TaskManager.construct.enqueue "app" 1).enqueue "app" 2).schedule
          (some "app")).schedule (some "app")).LengthInv
      ∧ ((((TaskManager.construct.enqueue "app" 1).enqueue "app" 2).schedule
          (some "app")).dequeue none).2.2.LengthInv :=
  have h := exeQueueLength_eq_queue_length
    (((TaskManager.construct.enqueue "app" 1).enqueue "app" 2).schedule (some "app"))
    (by unfold TaskManager.LengthInv; decide) "app" 3 (some "app") none
  ⟨by decide, h.2.2.1, h.2.2.2⟩

end blaze
